import Mathlib

/-!
Verification development for the Astra conversational-companion pipeline.

Python strings are modelled as lists of Unicode code points (`PyStr`),
Python dictionaries with optional keys as structures with `Option` fields,
floats appearing in thresholds and scores as rationals, and disk writes as
explicit components of a returned state.  Each definition mirrors one
function of the repository; theorems at the end settle the specification
claims.
-/

/-- A Python string, modelled as its list of Unicode code points. -/
abbrev PyStr := List Nat

/-- Code points of a Lean string literal, used to build concrete inputs. -/
def strCp (s : String) : PyStr := s.data.map Char.toNat

/-- Model of Python `str.lower` on one code point, covering the ASCII and
Cyrillic ranges used by the repository (`A`-`Z`, `А`-`Я`, `Ё`). -/
def lowerCp (n : Nat) : Nat :=
  if 65 ≤ n ∧ n ≤ 90 then n + 32
  else if 1040 ≤ n ∧ n ≤ 1071 then n + 32
  else if n = 1025 then 1105
  else n

/-- Model of the regex class `\w` (word character) for the ASCII and
Cyrillic ranges used by the repository. -/
def isWordCp (n : Nat) : Bool :=
  (48 ≤ n && n ≤ 57) || (65 ≤ n && n ≤ 90) || (97 ≤ n && n ≤ 122) || n == 95 ||
  (1040 ≤ n && n ≤ 1103) || n == 1025 || n == 1105

/-- Model of the regex class `\s` / Python whitespace (space, tab, newline,
vertical tab, form feed, carriage return). -/
def isSpaceCp (n : Nat) : Bool :=
  n == 32 || n == 9 || n == 10 || n == 11 || n == 12 || n == 13

/-- Python `str.split()` with no arguments, written with explicit fuel so
that it evaluates by kernel reduction; `fuel = l.length` always suffices
because every step consumes at least one character. -/
def splitWsGo (fuel : Nat) (l : PyStr) : List PyStr :=
  match fuel with
  | 0 => []
  | fuel + 1 =>
    match l with
    | [] => []
    | c :: cs =>
      if isSpaceCp c then splitWsGo fuel cs
      else (c :: cs.takeWhile (fun x => !isSpaceCp x)) ::
        splitWsGo fuel (cs.dropWhile (fun x => !isSpaceCp x))

/-- Python `str.split()`: split on whitespace runs, dropping empty
pieces. -/
def splitWs (l : PyStr) : List PyStr := splitWsGo l.length l

/-- Python `" ".join(...)`. -/
def joinSp : List PyStr → PyStr
  | [] => []
  | [t] => t
  | t :: ts => t ++ 32 :: joinSp ts

/-- Python `str.strip()`: remove whitespace from both ends. -/
def stripChars (l : PyStr) : PyStr :=
  ((l.dropWhile (fun c => isSpaceCp c)).reverse.dropWhile
    (fun c => isSpaceCp c)).reverse

/-- `AstraMemory._normalize_phrase`: lower-case, delete every character that
is neither a word character nor whitespace, collapse whitespace runs to a
single space, and strip the ends. -/
def normalize_phrase (s : PyStr) : PyStr :=
  stripChars (joinSp (splitWs ((s.map lowerCp).filter
    (fun c => isWordCp c || isSpaceCp c))))

-- ### Lemmas for normalization idempotence (C9)

theorem splitWsGo_nil (fuel : Nat) : splitWsGo fuel [] = [] := by
  cases fuel <;> rfl

theorem splitWsGo_congr (f1 : Nat) : ∀ (f2 : Nat) (l : PyStr),
    l.length ≤ f1 → l.length ≤ f2 → splitWsGo f1 l = splitWsGo f2 l := by
  induction f1 with
  | zero =>
    intro f2 l h1 _
    have : l = [] := List.length_eq_zero.mp (Nat.le_zero.mp h1)
    rw [this, splitWsGo_nil, splitWsGo_nil]
  | succ f1 ih =>
    intro f2 l h1 h2
    cases l with
    | nil => rw [splitWsGo_nil, splitWsGo_nil]
    | cons c cs =>
      cases f2 with
      | zero => simp at h2
      | succ f2 =>
        simp only [List.length_cons, Nat.succ_le_succ_iff] at h1 h2
        show (if isSpaceCp c then splitWsGo f1 cs else _)
          = (if isSpaceCp c then splitWsGo f2 cs else _)
        by_cases hsp : isSpaceCp c
        · rw [if_pos hsp, if_pos hsp]
          exact ih f2 cs h1 h2
        · rw [if_neg hsp, if_neg hsp]
          have hd : (cs.dropWhile (fun x => !isSpaceCp x)).length
              ≤ cs.length :=
            List.Sublist.length_le (List.dropWhile_sublist _)
          rw [ih f2 (cs.dropWhile (fun x => !isSpaceCp x))
            (hd.trans h1) (hd.trans h2)]

theorem splitWs_nil : splitWs [] = [] := rfl

theorem splitWs_cons (c : Nat) (cs : PyStr) :
    splitWs (c :: cs) =
      if isSpaceCp c then splitWs cs
      else (c :: cs.takeWhile (fun x => !isSpaceCp x)) ::
        splitWs (cs.dropWhile (fun x => !isSpaceCp x)) := by
  show (if isSpaceCp c then splitWsGo cs.length cs else
      (c :: cs.takeWhile (fun x => !isSpaceCp x)) ::
        splitWsGo cs.length (cs.dropWhile (fun x => !isSpaceCp x))) = _
  by_cases hsp : isSpaceCp c
  · rw [if_pos hsp, if_pos hsp]
    rfl
  · rw [if_neg hsp, if_neg hsp]
    have hd : (cs.dropWhile (fun x => !isSpaceCp x)).length ≤ cs.length :=
      List.Sublist.length_le (List.dropWhile_sublist _)
    rw [splitWs, splitWsGo_congr cs.length
      (cs.dropWhile (fun x => !isSpaceCp x)).length
      (cs.dropWhile (fun x => !isSpaceCp x)) hd le_rfl]

theorem joinSp_nil : joinSp [] = [] := rfl

theorem joinSp_single (t : PyStr) : joinSp [t] = t := rfl

theorem joinSp_cons_cons (t u : PyStr) (us : List PyStr) :
    joinSp (t :: u :: us) = t ++ 32 :: joinSp (u :: us) := rfl

theorem lowerCp_idem (n : Nat) : lowerCp (lowerCp n) = lowerCp n := by
  unfold lowerCp
  split_ifs <;> omega

theorem lowerCp_space : lowerCp 32 = 32 := by
  unfold lowerCp
  split_ifs <;> omega

theorem isSpaceCp_space : isSpaceCp 32 = true := by decide

theorem splitWsGo_token_mem : ∀ (fuel : Nat) (l t : PyStr),
    t ∈ splitWsGo fuel l →
    t ≠ [] ∧ ∀ c ∈ t, isSpaceCp c = false ∧ c ∈ l := by
  intro fuel
  induction fuel with
  | zero =>
    intro l t ht
    simp [splitWsGo] at ht
  | succ fuel ih =>
    intro l t ht
    cases l with
    | nil =>
      rw [splitWsGo_nil] at ht
      cases ht
    | cons c cs =>
      by_cases hsp : isSpaceCp c
      · have hred : splitWsGo (fuel + 1) (c :: cs) = splitWsGo fuel cs := by
          show (if isSpaceCp c then _ else _) = _
          rw [if_pos hsp]
        rw [hred] at ht
        obtain ⟨h1, h2⟩ := ih cs t ht
        exact ⟨h1, fun d hd =>
          ⟨(h2 d hd).1, List.mem_cons_of_mem _ (h2 d hd).2⟩⟩
      · have hred : splitWsGo (fuel + 1) (c :: cs)
            = (c :: cs.takeWhile (fun x => !isSpaceCp x)) ::
              splitWsGo fuel (cs.dropWhile (fun x => !isSpaceCp x)) := by
          show (if isSpaceCp c then _ else _) = _
          rw [if_neg hsp]
        rw [hred] at ht
        rcases List.mem_cons.mp ht with h | h
        · subst h
          refine ⟨by simp, ?_⟩
          intro d hd
          rcases List.mem_cons.mp hd with h | h
          · subst h
            exact ⟨Bool.of_not_eq_true hsp, List.mem_cons_self _ _⟩
          · have hmem := (List.takeWhile_sublist _).subset h
            have hprop := List.mem_takeWhile_imp h
            simp only [Bool.not_eq_true'] at hprop
            exact ⟨hprop, List.mem_cons_of_mem _ hmem⟩
        · obtain ⟨h1, h2⟩ := ih _ t h
          refine ⟨h1, fun d hd => ⟨(h2 d hd).1, ?_⟩⟩
          exact List.mem_cons_of_mem _
            ((List.dropWhile_sublist _).subset (h2 d hd).2)

theorem splitWs_token_mem {l : PyStr} {t : PyStr} (ht : t ∈ splitWs l) :
    t ≠ [] ∧ ∀ c ∈ t, isSpaceCp c = false ∧ c ∈ l :=
  splitWsGo_token_mem l.length l t ht

theorem takeWhile_append_all {p : Nat → Bool} {t r : PyStr}
    (h : ∀ c ∈ t, p c = true) :
    (t ++ r).takeWhile p = t ++ r.takeWhile p := by
  induction t with
  | nil => simp
  | cons c cs ih =>
    have hc := h c (List.mem_cons_self _ _)
    have ih2 := ih (fun d hd => h d (List.mem_cons_of_mem _ hd))
    simp [List.takeWhile_cons, hc, ih2]

theorem dropWhile_append_all {p : Nat → Bool} {t r : PyStr}
    (h : ∀ c ∈ t, p c = true) :
    (t ++ r).dropWhile p = r.dropWhile p := by
  induction t with
  | nil => simp
  | cons c cs ih =>
    have hc := h c (List.mem_cons_self _ _)
    have ih2 := ih (fun d hd => h d (List.mem_cons_of_mem _ hd))
    simp [List.dropWhile_cons, hc, ih2]

theorem splitWs_joinSp (tokens : List PyStr)
    (h : ∀ t ∈ tokens, t ≠ [] ∧ ∀ c ∈ t, isSpaceCp c = false) :
    splitWs (joinSp tokens) = tokens := by
  induction tokens with
  | nil => simp [joinSp_nil, splitWs_nil]
  | cons t ts ih =>
    obtain ⟨hne, hns⟩ := h t (List.mem_cons_self _ _)
    obtain ⟨c, cs, rfl⟩ := List.exists_cons_of_ne_nil hne
    have hc : isSpaceCp c = false := hns c (List.mem_cons_self _ _)
    have hcs : ∀ d ∈ cs, (fun x => !isSpaceCp x) d = true := by
      intro d hd
      simp [hns d (List.mem_cons_of_mem _ hd)]
    cases ts with
    | nil =>
      rw [joinSp_single, splitWs_cons, if_neg (by simp [hc])]
      rw [List.takeWhile_eq_self_iff.mpr hcs,
        List.dropWhile_eq_nil_iff.mpr hcs, splitWs_nil]
    | cons u us =>
      rw [joinSp_cons_cons, List.cons_append, splitWs_cons,
        if_neg (by simp [hc]),
        takeWhile_append_all hcs, dropWhile_append_all hcs]
      have h1 : List.takeWhile (fun x => !isSpaceCp x)
          (32 :: joinSp (u :: us)) = [] := by
        simp [List.takeWhile_cons, isSpaceCp_space]
      have h2 : List.dropWhile (fun x => !isSpaceCp x)
          (32 :: joinSp (u :: us)) = 32 :: joinSp (u :: us) := by
        simp [List.dropWhile_cons, isSpaceCp_space]
      rw [h1, List.append_nil, h2, splitWs_cons, if_pos isSpaceCp_space,
        ih (fun v hv => h v (List.mem_cons_of_mem _ hv))]

theorem joinSp_mem {tokens : List PyStr} {c : Nat} (hc : c ∈ joinSp tokens) :
    c = 32 ∨ ∃ t ∈ tokens, c ∈ t := by
  induction tokens with
  | nil => simp [joinSp_nil] at hc
  | cons t ts ih =>
    cases ts with
    | nil =>
      rw [joinSp_single] at hc
      exact Or.inr ⟨t, List.mem_cons_self _ _, hc⟩
    | cons u us =>
      rw [joinSp_cons_cons] at hc
      rcases List.mem_append.mp hc with h | h
      · exact Or.inr ⟨t, List.mem_cons_self _ _, h⟩
      · rcases List.mem_cons.mp h with h | h
        · exact Or.inl h
        · rcases ih h with h | ⟨v, hv, hcv⟩
          · exact Or.inl h
          · exact Or.inr ⟨v, List.mem_cons_of_mem _ hv, hcv⟩

theorem map_id_of_mem {l : PyStr} {f : Nat → Nat} (h : ∀ c ∈ l, f c = c) :
    l.map f = l := by
  induction l with
  | nil => rfl
  | cons c cs ih =>
    rw [List.map_cons, h c (List.mem_cons_self _ _),
      ih (fun d hd => h d (List.mem_cons_of_mem _ hd))]

theorem getLast?_cons_ne (a : Nat) {l : PyStr} (h : l ≠ []) :
    (a :: l).getLast? = l.getLast? := by
  obtain ⟨b, bs, rfl⟩ := List.exists_cons_of_ne_nil h
  exact List.getLast?_cons_cons ..

theorem joinSp_ne_nil {t : PyStr} (ht : t ≠ []) (ts : List PyStr) :
    joinSp (t :: ts) ≠ [] := by
  cases ts with
  | nil => rw [joinSp_single]; exact ht
  | cons u us =>
    rw [joinSp_cons_cons]
    obtain ⟨c, cs, rfl⟩ := List.exists_cons_of_ne_nil ht
    simp

theorem joinSp_head?_not_space (tokens : List PyStr)
    (h : ∀ t ∈ tokens, t ≠ [] ∧ ∀ c ∈ t, isSpaceCp c = false) :
    ∀ c, (joinSp tokens).head? = some c → isSpaceCp c = false := by
  intro c hc
  cases tokens with
  | nil => simp [joinSp_nil] at hc
  | cons t ts =>
    obtain ⟨hne, hns⟩ := h t (List.mem_cons_self _ _)
    obtain ⟨d, ds, rfl⟩ := List.exists_cons_of_ne_nil hne
    have hd : (joinSp ((d :: ds) :: ts)).head? = some d := by
      cases ts with
      | nil => rw [joinSp_single]; rfl
      | cons u us => rw [joinSp_cons_cons]; rfl
    rw [hd] at hc
    injection hc with hc
    rw [← hc]
    exact hns d (List.mem_cons_self _ _)

theorem joinSp_getLast?_not_space (tokens : List PyStr)
    (h : ∀ t ∈ tokens, t ≠ [] ∧ ∀ c ∈ t, isSpaceCp c = false) :
    ∀ c, (joinSp tokens).getLast? = some c → isSpaceCp c = false := by
  induction tokens with
  | nil => intro c hc; simp [joinSp_nil] at hc
  | cons t ts ih =>
    intro c hc
    obtain ⟨hne, hns⟩ := h t (List.mem_cons_self _ _)
    cases ts with
    | nil =>
      rw [joinSp_single] at hc
      exact hns c (List.mem_of_mem_getLast? (by rw [hc]; rfl))
    | cons u us =>
      rw [joinSp_cons_cons,
        List.getLast?_append_of_ne_nil _ (by simp)] at hc
      have hu : joinSp (u :: us) ≠ [] :=
        joinSp_ne_nil (h u (by simp)).1 us
      rw [getLast?_cons_ne _ hu] at hc
      exact ih (fun v hv => h v (List.mem_cons_of_mem _ hv)) c hc

theorem stripChars_eq_self {l : PyStr}
    (hhead : ∀ c, l.head? = some c → isSpaceCp c = false)
    (hlast : ∀ c, l.getLast? = some c → isSpaceCp c = false) :
    stripChars l = l := by
  unfold stripChars
  cases l with
  | nil => simp
  | cons c cs =>
    have hc : isSpaceCp c = false := hhead c rfl
    rw [List.dropWhile_cons]
    simp only [hc, Bool.false_eq_true, if_false]
    have hrev : (c :: cs).reverse ≠ [] := by simp
    obtain ⟨d, ds, hd⟩ := List.exists_cons_of_ne_nil hrev
    have hdlast : (c :: cs).getLast? = some d := by
      rw [List.getLast?_eq_head?_reverse, hd]
      rfl
    rw [hd, List.dropWhile_cons]
    simp only [hlast d hdlast, Bool.false_eq_true, if_false]
    rw [← hd, List.reverse_reverse]

theorem stripChars_joinSp (tokens : List PyStr)
    (h : ∀ t ∈ tokens, t ≠ [] ∧ ∀ c ∈ t, isSpaceCp c = false) :
    stripChars (joinSp tokens) = joinSp tokens :=
  stripChars_eq_self (joinSp_head?_not_space tokens h)
    (joinSp_getLast?_not_space tokens h)

/-- Normalization is idempotent (shared helper). -/
theorem normalize_idem_aux (s : PyStr) :
    normalize_phrase (normalize_phrase s) = normalize_phrase s := by
  have htok : ∀ t ∈ splitWs ((s.map lowerCp).filter
      (fun c => isWordCp c || isSpaceCp c)), t ≠ [] ∧ ∀ c ∈ t,
      isSpaceCp c = false ∧ isWordCp c = true ∧ lowerCp c = c := by
    intro t ht
    obtain ⟨h1, h2⟩ := splitWs_token_mem ht
    refine ⟨h1, fun c hc => ?_⟩
    obtain ⟨hsp, hmem⟩ := h2 c hc
    have hfil := List.mem_filter.mp hmem
    have hw : isWordCp c = true := by
      have hor := hfil.2
      simp only [Bool.or_eq_true] at hor
      rcases hor with h | h
      · exact h
      · rw [h] at hsp; cases hsp
    have hlow : lowerCp c = c := by
      obtain ⟨d, _, hd⟩ := List.mem_map.mp hfil.1
      rw [← hd, lowerCp_idem]
    exact ⟨hsp, hw, hlow⟩
  have hspace : ∀ t ∈ splitWs ((s.map lowerCp).filter
      (fun c => isWordCp c || isSpaceCp c)), t ≠ [] ∧ ∀ c ∈ t,
      isSpaceCp c = false :=
    fun t ht => ⟨(htok t ht).1, fun c hc => ((htok t ht).2 c hc).1⟩
  have hinner : normalize_phrase s = joinSp (splitWs ((s.map lowerCp).filter
      (fun c => isWordCp c || isSpaceCp c))) := by
    rw [normalize_phrase, stripChars_joinSp _ hspace]
  rw [hinner, normalize_phrase]
  have hlow2 : (joinSp (splitWs ((s.map lowerCp).filter
      (fun c => isWordCp c || isSpaceCp c)))).map lowerCp
      = joinSp (splitWs ((s.map lowerCp).filter
        (fun c => isWordCp c || isSpaceCp c))) := by
    apply map_id_of_mem
    intro c hc
    rcases joinSp_mem hc with h | ⟨t, ht, hct⟩
    · rw [h]; exact lowerCp_space
    · exact ((htok t ht).2 c hct).2.2
  rw [hlow2]
  have hfil2 : (joinSp (splitWs ((s.map lowerCp).filter
      (fun c => isWordCp c || isSpaceCp c)))).filter
        (fun c => isWordCp c || isSpaceCp c)
      = joinSp (splitWs ((s.map lowerCp).filter
        (fun c => isWordCp c || isSpaceCp c))) := by
    apply List.filter_eq_self.mpr
    intro c hc
    rcases joinSp_mem hc with h | ⟨t, ht, hct⟩
    · rw [h]; simp [isSpaceCp_space]
    · simp [((htok t ht).2 c hct).2.1]
  rw [hfil2, splitWs_joinSp _ hspace, stripChars_joinSp _ hspace]

-- ### difflib.SequenceMatcher (no junk; autojunk never fires on the short
-- phrases involved, since it requires the second string to have length
-- at least 200)

/-- Python `b[j]` character access (always in range where used). -/
def getCp (l : PyStr) (j : Nat) : Nat := l.getD j 0

/-- A matching block `(i, j, size)` as produced by `find_longest_match`. -/
structure LMatch where
  i : Nat
  j : Nat
  size : Nat
deriving DecidableEq

/-- Inner loop of `find_longest_match`: walk the ascending positions `js`
of `a[i]` inside `b`, extending runs recorded in `j2len` and keeping the
first longest block. -/
def flmInner (j2len : Nat → Nat) (i : Nat) (js : List Nat)
    (best : LMatch) (newj2len : Nat → Nat) : LMatch × (Nat → Nat) :=
  match js with
  | [] => (best, newj2len)
  | j :: rest =>
    let k := (if j = 0 then 0 else j2len (j - 1)) + 1
    let newj2len' := fun x => if x = j then k else newj2len x
    let best' := if k > best.size then ⟨i + 1 - k, j + 1 - k, k⟩ else best
    flmInner j2len i rest best' newj2len'

/-- Outer loop of `find_longest_match` over the `a`-indices. -/
def flmOuter (a b : PyStr) (blo bhi : Nat) (iRange : List Nat)
    (j2len : Nat → Nat) (best : LMatch) : LMatch :=
  match iRange with
  | [] => best
  | i :: rest =>
    let js := (List.range b.length).filter
      (fun j => blo ≤ j && j < bhi && getCp b j == getCp a i)
    let p := flmInner j2len i js best (fun _ => 0)
    flmOuter a b blo bhi rest p.2 p.1

/-- First extension loop of `find_longest_match` (all characters are
non-junk here), with explicit fuel: each step lowers `m.i` by one, so
`m.i` steps always suffice, and once the fuel is exhausted the loop
condition is false anyway. -/
def extendLowGo (a b : PyStr) (alo blo : Nat) (fuel : Nat) (m : LMatch) :
    LMatch :=
  match fuel with
  | 0 => m
  | fuel + 1 =>
    if m.i > alo ∧ m.j > blo ∧ getCp a (m.i - 1) = getCp b (m.j - 1) then
      extendLowGo a b alo blo fuel ⟨m.i - 1, m.j - 1, m.size + 1⟩
    else m

/-- First extension loop at its natural fuel. -/
def extendLow (a b : PyStr) (alo blo : Nat) (m : LMatch) : LMatch :=
  extendLowGo a b alo blo m.i m

/-- Second extension loop of `find_longest_match`, with explicit fuel:
each step raises `m.i + m.size` by one toward the bound `ahi`, so `ahi`
steps always suffice. -/
def extendHighGo (a b : PyStr) (ahi bhi : Nat) (fuel : Nat) (m : LMatch) :
    LMatch :=
  match fuel with
  | 0 => m
  | fuel + 1 =>
    if m.i + m.size < ahi ∧ m.j + m.size < bhi ∧
        getCp a (m.i + m.size) = getCp b (m.j + m.size) then
      extendHighGo a b ahi bhi fuel ⟨m.i, m.j, m.size + 1⟩
    else m

/-- Second extension loop at its natural fuel. -/
def extendHigh (a b : PyStr) (ahi bhi : Nat) (m : LMatch) : LMatch :=
  extendHighGo a b ahi bhi ahi m

/-- `SequenceMatcher.find_longest_match` on the ranges
`a[alo:ahi]`, `b[blo:bhi]`. -/
def findLongestMatch (a b : PyStr) (alo ahi blo bhi : Nat) : LMatch :=
  extendHigh a b ahi bhi (extendLow a b alo blo
    (flmOuter a b blo bhi (List.range' alo (ahi - alo))
      (fun _ => 0) ⟨alo, blo, 0⟩))

/-- Total number of matched characters over all matching blocks
(the recursion of `get_matching_blocks`, written with explicit fuel; each
step strictly shrinks the ranges, so `|a| + |b| + 1` fuel always
suffices). -/
def matchingSize (a b : PyStr) (fuel : Nat) (alo ahi blo bhi : Nat) : Nat :=
  match fuel with
  | 0 => 0
  | fuel + 1 =>
    let m := findLongestMatch a b alo ahi blo bhi
    if m.size = 0 then 0
    else matchingSize a b fuel alo m.i blo m.j + m.size +
      matchingSize a b fuel (m.i + m.size) ahi (m.j + m.size) bhi

/-- `SequenceMatcher.ratio()`: `2 * M / T` where `M` is the number of
matched characters and `T` the total length (`1.0` when both strings are
empty). -/
def smRatio (a b : PyStr) : ℚ :=
  if a.length + b.length = 0 then 1
  else (2 * matchingSize a b (a.length + b.length + 1) 0 a.length 0 b.length
    : ℚ) / (a.length + b.length)

-- ### Emotional data model

/-- A JSON value stored in a `tone`/`subtone`/`flavor` slot of an
emotion-memory entry: either a plain string or a labelled object. -/
inductive PyVal
  | str (s : PyStr)
  | labeled (label : PyStr)
deriving DecidableEq

/-- Truthiness of such a value (`""` is falsy, a non-empty dict truthy). -/
def pyvalTruthy : PyVal → Bool
  | .str s => !s.isEmpty
  | .labeled _ => true

/-- Truthiness of an optional string (Python `None` and `""` are falsy). -/
def optStrTruthy : Option PyStr → Bool
  | none => false
  | some s => !s.isEmpty

/-- An `EmotionMemoryEntry`: keys other than `trigger` may be absent. -/
structure EmotionEntry where
  trigger : PyStr
  emotion : Option (List PyStr)
  tone : Option PyVal
  subtone : Option (List PyVal)
  flavor : Option (List PyVal)
deriving DecidableEq

/-- A `TriggerPhrase.sets` record. -/
structure TriggerSets where
  tone : Option PyStr
  emotion : Option PyStr
  subtone : Option PyStr
  flavor : List PyStr
deriving DecidableEq

/-- A `TriggerPhrase`. -/
structure TriggerPhrase where
  trigger : PyStr
  sets : TriggerSets
deriving DecidableEq

/-- An `EmotionalState` dict with the shape used by the engine. -/
structure EmotState where
  tone : Option PyStr
  emotion : List PyStr
  subtone : List PyStr
  flavor : List PyStr
deriving DecidableEq

/-- The slice of `AstraMemory` state the emotional engine reads/writes. -/
structure AstraMem where
  emotion_memory : List EmotionEntry
  trigger_phrases : List TriggerPhrase
  current_state : EmotState
deriving DecidableEq

/-- Python `str.lower` over a whole string. -/
def pyLower (s : PyStr) : PyStr := s.map lowerCp

/-- Python substring test `needle in hay`. -/
def containsSub (hay needle : PyStr) : Bool :=
  (List.range (hay.length + 1)).any
    (fun i => (hay.drop i).take needle.length == needle)

/-- `AstraMemory.semantic_similarity`: normalize both phrases and take the
`SequenceMatcher` ratio. -/
def semantic_similarity (t1 t2 : PyStr) : ℚ :=
  smRatio (normalize_phrase t1) (normalize_phrase t2)

/-- `AstraMemory.semantic_match`: entries of `emotion_memory` whose
normalized trigger is at least `th`-similar to the normalized input,
sorted by decreasing similarity (stable, as Python's `list.sort`). -/
def semantic_match (mem : AstraMem) (input : PyStr) (th : ℚ) :
    List EmotionEntry :=
  let inputNorm := normalize_phrase input
  let found := mem.emotion_memory.filterMap (fun item =>
    let sim := semantic_similarity inputNorm (normalize_phrase item.trigger)
    if sim ≥ th then some (sim, item) else none)
  (found.mergeSort (fun x y => decide (y.1 ≤ x.1))).map (fun x => x.2)

/-- The comparison `_find_emotion_entry` applies to each stored entry:
its normalized trigger equals the normalized phrase. -/
def triggerKeyEq (phrase : PyStr) (item : EmotionEntry) : Bool :=
  normalize_phrase item.trigger == normalize_phrase phrase

/-- `AstraMemory._find_emotion_entry`: first entry whose normalized trigger
equals the normalized phrase. -/
def find_emotion_entry (mem : AstraMem) (phrase : PyStr) :
    Option EmotionEntry :=
  mem.emotion_memory.find? (triggerKeyEq phrase)

/-- Equality of two Python sets of strings. -/
def setEqStr (a b : List PyStr) : Bool :=
  a.all (fun x => decide (x ∈ b)) && b.all (fun x => decide (x ∈ a))

/-- Equality of a stored value set and an input string set. -/
def setEqVal (a : List PyVal) (b : List PyStr) : Bool :=
  a.all (fun x => decide (x ∈ b.map PyVal.str)) &&
  b.all (fun x => decide (PyVal.str x ∈ a))

/-- The module constant `SIMILARITY_THRESHOLD = 0.75`. -/
def SIMILARITY_THRESHOLD : ℚ := 3/4

/-- Result of `add_emotion_to_phrase`: the updated store, the boolean the
function returns, and whether `emotion_memory.json` was rewritten (the
audit-log append is not tracked). -/
structure AddResult where
  memory : AstraMem
  changed : Bool
  wroteFile : Bool
deriving DecidableEq

/-- The `emotion` update of the existing-entry branch of
`add_emotion_to_phrase`. -/
def updEmotion (emotion : Option (List PyStr)) (s : EmotionEntry × Bool) :
    EmotionEntry × Bool :=
  match emotion with
  | none => s
  | some ems =>
    if setEqStr (s.1.emotion.getD []) ems then s
    else ({ s.1 with emotion := some ems }, true)

/-- The `tone` update of the existing-entry branch. -/
def updTone (tone : Option PyStr) (s : EmotionEntry × Bool) :
    EmotionEntry × Bool :=
  match tone with
  | none => s
  | some t =>
    if s.1.tone = some (.str t) then s
    else ({ s.1 with tone := some (.str t) }, true)

/-- Whether a stored value is a dict-shaped object — the unhashable case
for Python `set()`. -/
def isDictVal : PyVal → Bool
  | .labeled _ => true
  | .str _ => false

/-- Whether Python `set(...)` over a stored value list raises
`TypeError: unhashable type: 'dict'`: true when the list holds a
dict-shaped value. -/
def hasDictVal (l : List PyVal) : Bool := l.any isDictVal

/-- The `subtone` update of the existing-entry branch.  Evaluating
`set(entry.get("subtone", []))` raises `TypeError` when the stored list
holds a dict, so the step returns `Except.error` carrying the state as
mutated so far (the comparison raises before any assignment). -/
def updSubtone (subtone : Option (List PyStr)) (s : EmotionEntry × Bool) :
    Except (EmotionEntry × Bool) (EmotionEntry × Bool) :=
  match subtone with
  | none => Except.ok s
  | some sts =>
    if hasDictVal (s.1.subtone.getD []) then Except.error s
    else if setEqVal (s.1.subtone.getD []) sts then Except.ok s
    else Except.ok ({ s.1 with subtone := some (sts.map PyVal.str) }, true)

/-- The `flavor` update of the existing-entry branch, raising like the
subtone one on a dict-valued stored flavor list. -/
def updFlavor (flavor : Option (List PyStr)) (s : EmotionEntry × Bool) :
    Except (EmotionEntry × Bool) (EmotionEntry × Bool) :=
  match flavor with
  | none => Except.ok s
  | some fls =>
    if hasDictVal (s.1.flavor.getD []) then Except.error s
    else if setEqVal (s.1.flavor.getD []) fls then Except.ok s
    else Except.ok ({ s.1 with flavor := some (fls.map PyVal.str) }, true)

/-- The four sequential field updates of the existing-entry branch of
`add_emotion_to_phrase`: emotion and tone first (their comparisons cannot
raise, stored emotions being plain strings and `!=` total), then subtone
and flavor, whose `set()` comparisons raise on a dict-valued stored
list.  `Except.error` carries the entry as already mutated in RAM when
the exception escapes; `Except.ok` the mutated entry and the `updated`
flag. -/
def applyUpdates (entry : EmotionEntry) (emotion : Option (List PyStr))
    (tone : Option PyStr) (subtone flavor : Option (List PyStr)) :
    Except EmotionEntry (EmotionEntry × Bool) :=
  match updSubtone subtone (updTone tone (updEmotion emotion (entry, false))) with
  | Except.error s => Except.error s.1
  | Except.ok s =>
    match updFlavor flavor s with
    | Except.error s2 => Except.error s2.1
    | Except.ok s2 => Except.ok s2

/-- In-place mutation of the first entry whose normalized trigger equals
the normalized phrase (the entry `_find_emotion_entry` returned). -/
def updateFirstEntry (l : List EmotionEntry) (phrase : PyStr)
    (e' : EmotionEntry) : List EmotionEntry :=
  match l with
  | [] => []
  | e :: es =>
    if triggerKeyEq phrase e then e' :: es
    else e :: updateFirstEntry es phrase e'

/-- `same_em`: the stored emotion set equals the given one (or none was
given). -/
def matchEmotionF (m : EmotionEntry) (emotion : Option (List PyStr)) :
    Bool :=
  match emotion with
  | none => true
  | some ems => setEqStr (m.emotion.getD []) ems

/-- `same_tone`. -/
def matchToneF (m : EmotionEntry) (tone : Option PyStr) : Bool :=
  match tone with
  | none => true
  | some t => m.tone == some (.str t)

/-- `same_st`, in the raise-free case (see `fieldsMatchE`). -/
def matchSubtoneF (m : EmotionEntry) (subtone : Option (List PyStr)) :
    Bool :=
  match subtone with
  | none => true
  | some sts => setEqVal (m.subtone.getD []) sts

/-- `same_fl`, in the raise-free case (see `fieldsMatchE`). -/
def matchFlavorF (m : EmotionEntry) (flavor : Option (List PyStr)) : Bool :=
  match flavor with
  | none => true
  | some fls => setEqVal (m.flavor.getD []) fls

/-- The `same_em and same_tone and same_st and same_fl` test of the
fuzzy-dedup loop of `add_emotion_to_phrase`, in the raise-free case. -/
def fieldsMatch (m : EmotionEntry) (emotion : Option (List PyStr))
    (tone : Option PyStr) (subtone flavor : Option (List PyStr)) : Bool :=
  matchEmotionF m emotion && matchToneF m tone &&
  matchSubtoneF m subtone && matchFlavorF m flavor

/-- One iteration of the fuzzy-dedup loop: the `same_st`/`same_fl`
assignments evaluate `set()` over the stored subtone/flavor whenever the
corresponding argument was given (the `or` short-circuits only on a
`None` argument), raising `TypeError` on a dict-valued list
(`Except.error`); otherwise the test is the pure `fieldsMatch`. -/
def fieldsMatchE (m : EmotionEntry) (emotion : Option (List PyStr))
    (tone : Option PyStr) (subtone flavor : Option (List PyStr)) :
    Except Unit Bool :=
  if subtone.isSome && hasDictVal (m.subtone.getD []) then Except.error ()
  else if flavor.isSome && hasDictVal (m.flavor.getD []) then Except.error ()
  else Except.ok (fieldsMatch m emotion tone subtone flavor)

/-- The fuzzy-dedup loop of `add_emotion_to_phrase` over the similarity
matches in order: `Except.ok true` models the early `return False` (a
similar entry with identical fields), `Except.ok false` the fall-through
to the append, `Except.error` a propagated `TypeError`. -/
def dedupScan (emotion : Option (List PyStr)) (tone : Option PyStr)
    (subtone flavor : Option (List PyStr)) :
    List EmotionEntry → Except Unit Bool
  | [] => Except.ok false
  | m :: ms =>
    match fieldsMatchE m emotion tone subtone flavor with
    | Except.error e => Except.error e
    | Except.ok true => Except.ok true
    | Except.ok false => dedupScan emotion tone subtone flavor ms

/-- Outcome of `add_emotion_to_phrase`: a normal return, or a propagated
`TypeError` from `set()` over a dict-valued stored subtone/flavor.
`typeError` carries the store as left in RAM when the exception escapes:
partial field mutations persist and no file write has happened. -/
inductive AddOutcome
  | ok (r : AddResult)
  | typeError (memoryAfterRaise : AstraMem)
deriving DecidableEq

/-- `AstraMemory.add_emotion_to_phrase`.  The `str`-vs-`list` input
coercion is pre-applied, so `emotion`, `subtone` and `flavor` arrive as
optional lists of strings. -/
def add_emotion_to_phrase (mem : AstraMem) (trigger : PyStr)
    (emotion : Option (List PyStr)) (tone : Option PyStr)
    (subtone flavor : Option (List PyStr)) : AddOutcome :=
  let norm := normalize_phrase trigger
  match find_emotion_entry mem norm with
  | some entry =>
    match applyUpdates entry emotion tone subtone flavor with
    | Except.error e' =>
      AddOutcome.typeError { mem with emotion_memory :=
        (updateFirstEntry mem.emotion_memory norm e') }
    | Except.ok p =>
      if p.2 then
        AddOutcome.ok ⟨{ mem with emotion_memory :=
            (updateFirstEntry mem.emotion_memory norm p.1) },
          true, true⟩
      else AddOutcome.ok ⟨mem, false, false⟩
  | none =>
    match dedupScan emotion tone subtone flavor
        (semantic_match mem norm SIMILARITY_THRESHOLD) with
    | Except.error _ => AddOutcome.typeError mem
    | Except.ok true => AddOutcome.ok ⟨mem, false, false⟩
    | Except.ok false =>
      AddOutcome.ok ⟨{ mem with emotion_memory := (mem.emotion_memory ++
          [{ trigger := norm, emotion := emotion,
             tone := tone.map .str,
             subtone := subtone.map (fun l => l.map .str),
             flavor := flavor.map (fun l => l.map .str) }]) },
        true, true⟩

-- ### decide_response_emotion

/-- Extracting the `label` of a dict-shaped value. -/
def labelOf : PyVal → Option PyStr
  | .labeled lab => some lab
  | .str _ => none

/-- Truthiness of an optional stored value. -/
def optValTruthy : Option PyVal → Bool
  | none => false
  | some v => pyvalTruthy v

/-- Truthiness of an optional list (absent and `[]` are falsy). -/
def optListStrTruthy : Option (List PyStr) → Bool
  | none => false
  | some l => !l.isEmpty

/-- Truthiness of an optional list of stored values. -/
def optListValTruthy : Option (List PyVal) → Bool
  | none => false
  | some l => !l.isEmpty

/-- The state a matched `TriggerPhrase` resolves to in
`decide_response_emotion`. -/
def triggerState (t : TriggerPhrase) : EmotState :=
  { tone := t.sets.tone,
    emotion :=
      if optStrTruthy t.sets.emotion then [t.sets.emotion.getD []] else [],
    subtone :=
      if optStrTruthy t.sets.subtone then [t.sets.subtone.getD []] else [],
    flavor := t.sets.flavor }

/-- The truthiness filter building `matched_items`. -/
def entryAnyField (m : EmotionEntry) : Bool :=
  optValTruthy m.tone || optListStrTruthy m.emotion ||
  optListValTruthy m.subtone || optListValTruthy m.flavor

/-- The state built from the last fuzzy match in
`decide_response_emotion`. -/
def fuzzyState (last : EmotionEntry) : EmotState :=
  { tone := match last.tone with
      | some (.labeled lab) => some lab
      | _ => none,
    emotion := last.emotion.getD [],
    subtone := if optListValTruthy last.subtone then
        (last.subtone.getD []).filterMap labelOf else [],
    flavor := if optListValTruthy last.flavor then
        (last.flavor.getD []).filterMap labelOf else [] }

/-- `AstraMemory.decide_response_emotion`: a substring trigger wins;
otherwise the last informative fuzzy match; otherwise the current
state. -/
def decide_response_emotion (mem : AstraMem) (context : PyStr) :
    EmotState :=
  let analysis := semantic_match mem context (4/5)
  match mem.trigger_phrases.find?
      (fun t => containsSub (pyLower context) (pyLower t.trigger)) with
  | some t => triggerState t
  | none =>
    match (analysis.filter entryAnyField).getLast? with
    | some last => fuzzyState last
    | none => mem.current_state

-- ### _smooth_transition_state

/-- The neutral filler emotion `"лёгкая теплота"` (mild warmth). -/
def fillerEmotion : PyStr := strCp "лёгкая теплота"

/-- The `for em in new` append loop of `_smooth_transition_state`. -/
def appendNew (merged : List PyStr) (new : List PyStr) : List PyStr :=
  match new with
  | [] => merged
  | em :: rest => appendNew (if em ∈ merged then merged else merged ++ [em]) rest

/-- The emotion-merging step of `_smooth_transition_state`. -/
def smoothEmotion (prev nw : List PyStr) : List PyStr :=
  if nw ≠ [] then
    if prev ≠ nw then
      appendNew (prev ++
        (if fillerEmotion ∉ prev ∧ fillerEmotion ∉ nw
         then [fillerEmotion] else [])) nw
    else prev
  else prev

/-- `AstraMemory._smooth_transition_state` with `self.current_state`
passed explicitly.  The four sequential `if` blocks of the source touch
pairwise disjoint keys of the state dict, so they are written as one
record. -/
def smooth_transition_state (current target : EmotState) : EmotState :=
  { tone := if optStrTruthy target.tone ∧ target.tone ≠ current.tone
      then target.tone else current.tone,
    emotion := smoothEmotion current.emotion target.emotion,
    subtone := if target.subtone ≠ [] ∧
        ¬ setEqStr target.subtone current.subtone = true
      then target.subtone else current.subtone,
    flavor := if target.flavor ≠ [] ∧
        ¬ setEqStr target.flavor current.flavor = true
      then target.flavor else current.flavor }

-- ### Lemmas for state smoothing (C2)

theorem mem_appendNew (x : PyStr) (n : List PyStr) :
    ∀ m : List PyStr, x ∈ appendNew m n ↔ x ∈ m ∨ x ∈ n := by
  induction n with
  | nil => intro m; simp [appendNew]
  | cons a as ih =>
    intro m
    rw [appendNew, ih]
    by_cases ha : a ∈ m
    · simp only [if_pos ha, List.mem_cons]
      constructor
      · rintro (h | h)
        · exact Or.inl h
        · exact Or.inr (Or.inr h)
      · rintro (h | h | h)
        · exact Or.inl h
        · exact Or.inl (h ▸ ha)
        · exact Or.inr h
    · simp only [if_neg ha, List.mem_append, List.mem_cons,
        List.mem_singleton]
      tauto

-- ### C2 concrete inputs

/-- Prior state for the C2 counterexample. -/
def c2Prior : EmotState :=
  { tone := none, emotion := [strCp "радость"], subtone := [], flavor := [] }

/-- Target state for the C2 counterexample: its emotion set overlaps the
prior one. -/
def c2Target : EmotState :=
  { tone := none, emotion := [strCp "радость", strCp "грусть"],
    subtone := [], flavor := [] }

/-- C2 counterexample: the prior and target emotion sets overlap (both
contain "радость") and the filler is in neither, yet smoothing inserts the
filler — so the filler is not inserted "only when both sets are non-empty
and disjoint". -/
theorem smooth_transition_filler_overlap :
    fillerEmotion ∈ (smooth_transition_state c2Prior c2Target).emotion
    ∧ fillerEmotion ∉ c2Prior.emotion ∧ fillerEmotion ∉ c2Target.emotion
    ∧ strCp "радость" ∈ c2Prior.emotion ∧ strCp "радость" ∈ c2Target.emotion
    ∧ c2Prior.emotion ≠ [] ∧ c2Target.emotion ≠ [] := by
  decide

/-- C2 amended: smoothing merges (every prior and every target emotion is
kept), and the filler "лёгкая теплота" appears in the result exactly when
it was already in one of the lists or the target emotion list is non-empty
and differs, as a list, from the prior one — in particular also when the
two sets overlap or the prior list is empty. -/
theorem smooth_transition_emotion_merge (current target : EmotState) :
    (∀ e ∈ current.emotion,
      e ∈ (smooth_transition_state current target).emotion) ∧
    (∀ e ∈ target.emotion,
      e ∈ (smooth_transition_state current target).emotion) ∧
    (fillerEmotion ∈ (smooth_transition_state current target).emotion ↔
      (fillerEmotion ∈ current.emotion ∨ fillerEmotion ∈ target.emotion ∨
        (target.emotion ≠ [] ∧ target.emotion ≠ current.emotion))) := by
  have hres : (smooth_transition_state current target).emotion
      = smoothEmotion current.emotion target.emotion := rfl
  rw [hres]
  refine ⟨?_, ?_, ?_⟩
  · intro e he
    unfold smoothEmotion
    split_ifs with h1 h2 h3
    · exact (mem_appendNew e _ _).mpr
        (Or.inl (List.mem_append_left _ he))
    · exact (mem_appendNew e _ _).mpr
        (Or.inl (List.mem_append_left _ he))
    · exact he
    · exact he
  · intro e he
    unfold smoothEmotion
    split_ifs with h1 h2 h3
    · exact (mem_appendNew e _ _).mpr (Or.inr he)
    · exact (mem_appendNew e _ _).mpr (Or.inr he)
    · rw [not_not] at h2
      rw [h2]
      exact he
    · rw [not_not] at h1
      rw [h1] at he
      cases he
  · unfold smoothEmotion
    split_ifs with h1 h2 h3
    · rw [mem_appendNew]
      simp only [List.mem_append, List.mem_singleton]
      constructor
      · intro _
        exact Or.inr (Or.inr ⟨h1, Ne.symm h2⟩)
      · intro _
        exact Or.inl (Or.inr trivial)
    · rw [mem_appendNew]
      simp only [List.mem_append, List.mem_nil_iff, or_false]
      rw [Classical.not_and_iff_or_not_not, not_not, not_not] at h3
      constructor
      · rintro (h | h)
        · exact Or.inl h
        · exact Or.inr (Or.inl h)
      · intro _
        rcases h3 with h | h
        · exact Or.inl h
        · exact Or.inr h
    · rw [not_not] at h2
      constructor
      · intro h
        exact Or.inl h
      · rintro (h | h | ⟨_, hne⟩)
        · exact h
        · rw [h2]; exact h
        · exact absurd h2.symm hne
    · rw [not_not] at h1
      rw [h1]
      simp only [List.mem_nil_iff, or_false, false_or]
      constructor
      · intro h
        exact Or.inl h
      · rintro (h | ⟨hne, _⟩)
        · exact h
        · exact absurd rfl hne

/-- Witness for C2's merge theorem at a concrete state pair. -/
theorem smooth_transition_emotion_merge_witness :
    strCp "радость" ∈ (smooth_transition_state c2Prior c2Target).emotion :=
  (smooth_transition_emotion_merge c2Prior c2Target).1
    (strCp "радость") (by decide)

-- ### C7: trigger precedence

/-- C7: if any registered trigger phrase occurs (case-insensitively) as a
substring of the message, `decide_response_emotion` returns the state
built from a matching trigger's `sets` — the fuzzy emotion-memory match is
never consulted, whatever `emotion_memory` contains. -/
theorem decide_response_emotion_trigger_precedence (mem : AstraMem)
    (context : PyStr)
    (h : ∃ t ∈ mem.trigger_phrases,
      containsSub (pyLower context) (pyLower t.trigger) = true) :
    ∃ t ∈ mem.trigger_phrases,
      containsSub (pyLower context) (pyLower t.trigger) = true ∧
      decide_response_emotion mem context = triggerState t := by
  have hsome : (mem.trigger_phrases.find? (fun t =>
      containsSub (pyLower context) (pyLower t.trigger))).isSome := by
    rw [List.find?_isSome]
    exact h
  obtain ⟨t, ht⟩ := Option.isSome_iff_exists.mp hsome
  have hmem := List.mem_of_find?_eq_some ht
  have hp := List.find?_some ht
  refine ⟨t, hmem, hp, ?_⟩
  simp only [decide_response_emotion]
  rw [ht]

/-- Concrete trigger phrase for the C7 witness. -/
def c7Trig : TriggerPhrase :=
  { trigger := strCp "солнышко",
    sets := { tone := some (strCp "нежный"),
              emotion := some (strCp "нежность"),
              subtone := none,
              flavor := [strCp "медово-текучий"] } }

/-- Concrete memory for the C7 witness: one registered trigger, empty
emotion memory. -/
def c7Mem : AstraMem :=
  { emotion_memory := [],
    trigger_phrases := [c7Trig],
    current_state := { tone := some (strCp "нежный"),
                       emotion := [strCp "нежность"],
                       subtone := [strCp "дрожащий"],
                       flavor := [strCp "медово-текучий"] } }

/-- Witness for C7 at a concrete message containing the trigger. -/
theorem decide_response_emotion_trigger_precedence_witness :
    ∃ t ∈ c7Mem.trigger_phrases,
      containsSub (pyLower (strCp "Привет, солнышко!"))
        (pyLower t.trigger) = true ∧
      decide_response_emotion c7Mem (strCp "Привет, солнышко!")
        = triggerState t :=
  decide_response_emotion_trigger_precedence c7Mem
    (strCp "Привет, солнышко!") ⟨c7Trig, by decide, by decide⟩

-- ### Lemmas for the dedup invariant (C3)

theorem setEqStr_refl (a : List PyStr) : setEqStr a a = true := by
  simp [setEqStr, List.all_eq_true]

theorem setEqVal_mapStr (b : List PyStr) :
    setEqVal (b.map PyVal.str) b = true := by
  simp only [setEqVal, Bool.and_eq_true, List.all_eq_true,
    decide_eq_true_eq]
  exact ⟨fun x hx => hx, fun x hx => List.mem_map_of_mem _ hx⟩

theorem hasDictVal_mapStr (b : List PyStr) :
    hasDictVal (b.map PyVal.str) = false := by
  induction b with
  | nil => rfl
  | cons x xs ih =>
    simp only [hasDictVal, List.map_cons, List.any_cons] at ih ⊢
    simp [isDictVal, ih]

theorem hasDictVal_optMapStr (o : Option (List PyStr)) :
    hasDictVal ((o.map (fun l => l.map PyVal.str)).getD []) = false := by
  rcases o with _ | l
  · rfl
  · exact hasDictVal_mapStr l

theorem updEmotion_pres (em : Option (List PyStr))
    (s : EmotionEntry × Bool) :
    (updEmotion em s).1.tone = s.1.tone ∧
    (updEmotion em s).1.subtone = s.1.subtone ∧
    (updEmotion em s).1.flavor = s.1.flavor ∧
    (updEmotion em s).1.trigger = s.1.trigger := by
  rcases em with _ | ems
  · exact ⟨rfl, rfl, rfl, rfl⟩
  · simp only [updEmotion]
    split_ifs <;> exact ⟨rfl, rfl, rfl, rfl⟩

theorem updTone_pres (t : Option PyStr) (s : EmotionEntry × Bool) :
    (updTone t s).1.emotion = s.1.emotion ∧
    (updTone t s).1.subtone = s.1.subtone ∧
    (updTone t s).1.flavor = s.1.flavor ∧
    (updTone t s).1.trigger = s.1.trigger := by
  rcases t with _ | t
  · exact ⟨rfl, rfl, rfl, rfl⟩
  · simp only [updTone]
    split_ifs <;> exact ⟨rfl, rfl, rfl, rfl⟩

theorem updSubtone_some_ok {sts : List PyStr} {s s' : EmotionEntry × Bool}
    (h : updSubtone (some sts) s = Except.ok s') :
    hasDictVal (s.1.subtone.getD []) = false ∧
    ((setEqVal (s.1.subtone.getD []) sts = true ∧ s' = s) ∨
      s' = ({ s.1 with subtone := some (sts.map PyVal.str) }, true)) := by
  simp only [updSubtone] at h
  by_cases hd : hasDictVal (s.1.subtone.getD []) = true
  · rw [if_pos hd] at h
    exact Except.noConfusion h
  · rw [if_neg hd] at h
    refine ⟨?_, ?_⟩
    · cases hB : hasDictVal (s.1.subtone.getD []) with
      | false => rfl
      | true => exact absurd hB hd
    · by_cases he : setEqVal (s.1.subtone.getD []) sts = true
      · rw [if_pos he] at h
        injection h with h
        exact Or.inl ⟨he, h.symm⟩
      · rw [if_neg he] at h
        injection h with h
        exact Or.inr h.symm

theorem updFlavor_some_ok {fls : List PyStr} {s s' : EmotionEntry × Bool}
    (h : updFlavor (some fls) s = Except.ok s') :
    hasDictVal (s.1.flavor.getD []) = false ∧
    ((setEqVal (s.1.flavor.getD []) fls = true ∧ s' = s) ∨
      s' = ({ s.1 with flavor := some (fls.map PyVal.str) }, true)) := by
  simp only [updFlavor] at h
  by_cases hd : hasDictVal (s.1.flavor.getD []) = true
  · rw [if_pos hd] at h
    exact Except.noConfusion h
  · rw [if_neg hd] at h
    refine ⟨?_, ?_⟩
    · cases hB : hasDictVal (s.1.flavor.getD []) with
      | false => rfl
      | true => exact absurd hB hd
    · by_cases he : setEqVal (s.1.flavor.getD []) fls = true
      · rw [if_pos he] at h
        injection h with h
        exact Or.inl ⟨he, h.symm⟩
      · rw [if_neg he] at h
        injection h with h
        exact Or.inr h.symm

theorem updSubtone_ok_pres {st : Option (List PyStr)}
    {s s' : EmotionEntry × Bool} (h : updSubtone st s = Except.ok s') :
    s'.1.emotion = s.1.emotion ∧ s'.1.tone = s.1.tone ∧
    s'.1.flavor = s.1.flavor ∧ s'.1.trigger = s.1.trigger := by
  rcases st with _ | sts
  · simp only [updSubtone] at h
    injection h with h
    rw [← h]
    exact ⟨rfl, rfl, rfl, rfl⟩
  · obtain ⟨hd, hcase⟩ := updSubtone_some_ok h
    rcases hcase with ⟨he, hs⟩ | hs <;> rw [hs] <;>
      exact ⟨rfl, rfl, rfl, rfl⟩

theorem updFlavor_ok_pres {fl : Option (List PyStr)}
    {s s' : EmotionEntry × Bool} (h : updFlavor fl s = Except.ok s') :
    s'.1.emotion = s.1.emotion ∧ s'.1.tone = s.1.tone ∧
    s'.1.subtone = s.1.subtone ∧ s'.1.trigger = s.1.trigger := by
  rcases fl with _ | fls
  · simp only [updFlavor] at h
    injection h with h
    rw [← h]
    exact ⟨rfl, rfl, rfl, rfl⟩
  · obtain ⟨hd, hcase⟩ := updFlavor_some_ok h
    rcases hcase with ⟨he, hs⟩ | hs <;> rw [hs] <;>
      exact ⟨rfl, rfl, rfl, rfl⟩

theorem updEmotion_matches (em : Option (List PyStr))
    (s : EmotionEntry × Bool) :
    matchEmotionF (updEmotion em s).1 em = true := by
  rcases em with _ | ems
  · rfl
  · simp only [updEmotion, matchEmotionF]
    split_ifs with h
    · exact h
    · simp [setEqStr_refl]

theorem updTone_matches (t : Option PyStr) (s : EmotionEntry × Bool) :
    matchToneF (updTone t s).1 t = true := by
  rcases t with _ | t
  · rfl
  · simp only [updTone, matchToneF]
    split_ifs with h
    · simp [h]
    · simp

theorem matchEmotionF_congr {m m' : EmotionEntry}
    (h : m.emotion = m'.emotion) (em : Option (List PyStr)) :
    matchEmotionF m em = matchEmotionF m' em := by
  rcases em with _ | ems <;> simp [matchEmotionF, h]

theorem matchToneF_congr {m m' : EmotionEntry} (h : m.tone = m'.tone)
    (t : Option PyStr) : matchToneF m t = matchToneF m' t := by
  rcases t with _ | t <;> simp [matchToneF, h]

theorem updEmotion_of_match (em : Option (List PyStr))
    (s : EmotionEntry × Bool) (h : matchEmotionF s.1 em = true) :
    updEmotion em s = s := by
  rcases em with _ | ems
  · rfl
  · simp only [matchEmotionF] at h
    simp only [updEmotion]
    rw [if_pos h]

theorem updTone_of_match (t : Option PyStr) (s : EmotionEntry × Bool)
    (h : matchToneF s.1 t = true) : updTone t s = s := by
  rcases t with _ | t
  · rfl
  · simp only [matchToneF] at h
    simp only [updTone]
    rw [if_pos (by simpa using h)]

theorem updSubtone_self_of_field {st : Option (List PyStr)}
    {s s' : EmotionEntry × Bool} (h : updSubtone st s = Except.ok s')
    (w : EmotionEntry × Bool) (hw : w.1.subtone = s'.1.subtone) :
    updSubtone st w = Except.ok w := by
  rcases st with _ | sts
  · rfl
  · obtain ⟨hd, hcase⟩ := updSubtone_some_ok h
    have hd' : hasDictVal (w.1.subtone.getD []) = false := by
      rw [hw]
      rcases hcase with ⟨he, hs⟩ | hs
      · rw [hs]
        exact hd
      · rw [hs]
        exact hasDictVal_mapStr sts
    have he' : setEqVal (w.1.subtone.getD []) sts = true := by
      rw [hw]
      rcases hcase with ⟨he, hs⟩ | hs
      · rw [hs]
        exact he
      · rw [hs]
        exact setEqVal_mapStr sts
    simp only [updSubtone]
    rw [if_neg (by simp [hd']), if_pos he']

theorem updFlavor_self_of_field {fl : Option (List PyStr)}
    {s s' : EmotionEntry × Bool} (h : updFlavor fl s = Except.ok s')
    (w : EmotionEntry × Bool) (hw : w.1.flavor = s'.1.flavor) :
    updFlavor fl w = Except.ok w := by
  rcases fl with _ | fls
  · rfl
  · obtain ⟨hd, hcase⟩ := updFlavor_some_ok h
    have hd' : hasDictVal (w.1.flavor.getD []) = false := by
      rw [hw]
      rcases hcase with ⟨he, hs⟩ | hs
      · rw [hs]
        exact hd
      · rw [hs]
        exact hasDictVal_mapStr fls
    have he' : setEqVal (w.1.flavor.getD []) fls = true := by
      rw [hw]
      rcases hcase with ⟨he, hs⟩ | hs
      · rw [hs]
        exact he
      · rw [hs]
        exact setEqVal_mapStr fls
    simp only [updFlavor]
    rw [if_neg (by simp [hd']), if_pos he']

theorem applyUpdates_eq_err1 {e : EmotionEntry} {em : Option (List PyStr)}
    {t : Option PyStr} {st fl : Option (List PyStr)}
    {s : EmotionEntry × Bool}
    (h : updSubtone st (updTone t (updEmotion em (e, false))) =
      Except.error s) :
    applyUpdates e em t st fl = Except.error s.1 := by
  simp only [applyUpdates, h]

theorem applyUpdates_eq_err2 {e : EmotionEntry} {em : Option (List PyStr)}
    {t : Option PyStr} {st fl : Option (List PyStr)}
    {s3 s2 : EmotionEntry × Bool}
    (h1 : updSubtone st (updTone t (updEmotion em (e, false))) =
      Except.ok s3)
    (h2 : updFlavor fl s3 = Except.error s2) :
    applyUpdates e em t st fl = Except.error s2.1 := by
  simp only [applyUpdates, h1, h2]

theorem applyUpdates_eq_ok {e : EmotionEntry} {em : Option (List PyStr)}
    {t : Option PyStr} {st fl : Option (List PyStr)}
    {s3 p : EmotionEntry × Bool}
    (h1 : updSubtone st (updTone t (updEmotion em (e, false))) =
      Except.ok s3)
    (h2 : updFlavor fl s3 = Except.ok p) :
    applyUpdates e em t st fl = Except.ok p := by
  simp only [applyUpdates, h1, h2]

theorem applyUpdates_ok_inv {e : EmotionEntry} {em : Option (List PyStr)}
    {t : Option PyStr} {st fl : Option (List PyStr)}
    {p : EmotionEntry × Bool}
    (h : applyUpdates e em t st fl = Except.ok p) :
    ∃ s3, updSubtone st (updTone t (updEmotion em (e, false))) =
        Except.ok s3
      ∧ updFlavor fl s3 = Except.ok p := by
  cases hsub : updSubtone st (updTone t (updEmotion em (e, false))) with
  | error s =>
    rw [applyUpdates_eq_err1 hsub] at h
    exact Except.noConfusion h
  | ok s3 =>
    cases hfl : updFlavor fl s3 with
    | error s2 =>
      rw [applyUpdates_eq_err2 hsub hfl] at h
      exact Except.noConfusion h
    | ok p2 =>
      rw [applyUpdates_eq_ok hsub hfl] at h
      injection h with h
      exact ⟨s3, rfl, by rw [hfl, h]⟩

theorem applyUpdates_stable {e : EmotionEntry} {em : Option (List PyStr)}
    {t : Option PyStr} {st fl : Option (List PyStr)}
    {p : EmotionEntry × Bool}
    (h : applyUpdates e em t st fl = Except.ok p) :
    applyUpdates p.1 em t st fl = Except.ok (p.1, false) := by
  obtain ⟨s3, hsub, hfl⟩ := applyUpdates_ok_inv h
  have hFe := updFlavor_ok_pres hfl
  have hSe := updSubtone_ok_pres hsub
  have hpe : p.1.emotion = (updEmotion em (e, false)).1.emotion := by
    rw [hFe.1, hSe.1, (updTone_pres t _).1]
  have hpt : p.1.tone = (updTone t (updEmotion em (e, false))).1.tone := by
    rw [hFe.2.1, hSe.2.1]
  have hme : matchEmotionF p.1 em = true := by
    rw [matchEmotionF_congr hpe em]
    exact updEmotion_matches em (e, false)
  have hmt : matchToneF p.1 t = true := by
    rw [matchToneF_congr hpt t]
    exact updTone_matches t (updEmotion em (e, false))
  have hE : updEmotion em (p.1, false) = (p.1, false) :=
    updEmotion_of_match em (p.1, false) hme
  have hT : updTone t (p.1, false) = (p.1, false) :=
    updTone_of_match t (p.1, false) hmt
  have hS : updSubtone st (p.1, false) = Except.ok (p.1, false) :=
    updSubtone_self_of_field hsub (p.1, false) hFe.2.2.1
  have hF : updFlavor fl (p.1, false) = Except.ok (p.1, false) :=
    updFlavor_self_of_field hfl (p.1, false) rfl
  exact applyUpdates_eq_ok (by rw [hE, hT]; exact hS) hF

theorem applyUpdates_trigger {e : EmotionEntry} {em : Option (List PyStr)}
    {t : Option PyStr} {st fl : Option (List PyStr)}
    {p : EmotionEntry × Bool}
    (h : applyUpdates e em t st fl = Except.ok p) :
    p.1.trigger = e.trigger := by
  obtain ⟨s3, hsub, hfl⟩ := applyUpdates_ok_inv h
  rw [(updFlavor_ok_pres hfl).2.2.2, (updSubtone_ok_pres hsub).2.2.2,
    (updTone_pres t _).2.2.2, (updEmotion_pres em _).2.2.2]

theorem applyUpdates_ne {e : EmotionEntry} {em : Option (List PyStr)}
    {t : Option PyStr} {st fl : Option (List PyStr)}
    {p : EmotionEntry × Bool}
    (h : applyUpdates e em t st fl = Except.ok p) (hp : p.2 = true) :
    p.1 ≠ e := by
  intro heq
  have hstab := applyUpdates_stable h
  rw [heq, h] at hstab
  injection hstab with hstab
  rw [hstab] at hp
  simp at hp

theorem applyUpdates_of_fieldsMatch_nodict {e : EmotionEntry}
    {em : Option (List PyStr)} {t : Option PyStr}
    {st fl : Option (List PyStr)}
    (h : fieldsMatch e em t st fl = true)
    (hs : hasDictVal (e.subtone.getD []) = false)
    (hf : hasDictVal (e.flavor.getD []) = false) :
    applyUpdates e em t st fl = Except.ok (e, false) := by
  simp only [fieldsMatch, Bool.and_eq_true] at h
  obtain ⟨⟨⟨h1, h2⟩, h3⟩, h4⟩ := h
  have hE : updEmotion em (e, false) = (e, false) :=
    updEmotion_of_match em (e, false) h1
  have hT : updTone t (e, false) = (e, false) :=
    updTone_of_match t (e, false) h2
  have hS : updSubtone st (e, false) = Except.ok (e, false) := by
    rcases st with _ | sts
    · rfl
    · simp only [matchSubtoneF] at h3
      simp only [updSubtone]
      rw [if_neg (by simp [hs]), if_pos h3]
  have hF : updFlavor fl (e, false) = Except.ok (e, false) := by
    rcases fl with _ | fls
    · rfl
    · simp only [matchFlavorF] at h4
      simp only [updFlavor]
      rw [if_neg (by simp [hf]), if_pos h4]
  exact applyUpdates_eq_ok (by rw [hE, hT]; exact hS) hF

theorem fieldsMatch_newItem (x : PyStr) (em : Option (List PyStr))
    (t : Option PyStr) (st fl : Option (List PyStr)) :
    fieldsMatch
      { trigger := x, emotion := em, tone := t.map .str,
        subtone := st.map (fun l => l.map .str),
        flavor := fl.map (fun l => l.map .str) } em t st fl = true := by
  simp only [fieldsMatch, Bool.and_eq_true]
  refine ⟨⟨⟨?_, ?_⟩, ?_⟩, ?_⟩
  · rcases em with _ | ems
    · rfl
    · simp [matchEmotionF, setEqStr_refl]
  · rcases t with _ | t
    · rfl
    · simp [matchToneF]
  · rcases st with _ | sts
    · rfl
    · simp [matchSubtoneF, setEqVal_mapStr]
  · rcases fl with _ | fls
    · rfl
    · simp [matchFlavorF, setEqVal_mapStr]

theorem updateFirstEntry_length (l : List EmotionEntry) (phrase : PyStr)
    (e' : EmotionEntry) :
    (updateFirstEntry l phrase e').length = l.length := by
  induction l with
  | nil => rfl
  | cons e es ih =>
    rw [updateFirstEntry]
    split_ifs <;> simp [ih]

theorem updateFirstEntry_find? (l : List EmotionEntry) (phrase : PyStr)
    (e' entry : EmotionEntry)
    (hl : l.find? (triggerKeyEq phrase) = some entry)
    (he' : triggerKeyEq phrase e' = true) :
    (updateFirstEntry l phrase e').find? (triggerKeyEq phrase)
      = some e' := by
  induction l with
  | nil => simp at hl
  | cons e es ih =>
    by_cases hP : triggerKeyEq phrase e = true
    · rw [updateFirstEntry, if_pos hP]
      exact List.find?_cons_of_pos _ he'
    · have hfn := List.find?_cons_of_neg (updateFirstEntry es phrase e') hP
      have hln := List.find?_cons_of_neg es hP
      rw [hln] at hl
      rw [updateFirstEntry, if_neg hP, hfn]
      exact ih hl

theorem updateFirstEntry_ne (l : List EmotionEntry) (phrase : PyStr)
    (e' entry : EmotionEntry)
    (hl : l.find? (triggerKeyEq phrase) = some entry)
    (hne : e' ≠ entry) : updateFirstEntry l phrase e' ≠ l := by
  induction l with
  | nil => simp at hl
  | cons e es ih =>
    by_cases hP : triggerKeyEq phrase e = true
    · have hfp := List.find?_cons_of_pos es hP
      rw [hfp] at hl
      injection hl with hl
      rw [updateFirstEntry, if_pos hP]
      intro hEq
      injection hEq with h1 h2
      exact hne (h1.trans hl)
    · have hln := List.find?_cons_of_neg es hP
      rw [hln] at hl
      rw [updateFirstEntry, if_neg hP]
      intro hEq
      injection hEq with h1 h2
      exact (ih hl) h2

theorem dedupScan_ok_false {em : Option (List PyStr)} {t : Option PyStr}
    {st fl : Option (List PyStr)} :
    ∀ l : List EmotionEntry,
      (∀ m ∈ l, fieldsMatchE m em t st fl = Except.ok false) →
      dedupScan em t st fl l = Except.ok false := by
  intro l
  induction l with
  | nil => intro _; rfl
  | cons m ms ih =>
    intro h
    simp only [dedupScan, h m (List.mem_cons_self m ms)]
    exact ih (fun x hx => h x (List.mem_cons_of_mem m hx))

theorem add_eq_update (mem : AstraMem) (trigger : PyStr)
    (em : Option (List PyStr)) (t : Option PyStr)
    (st fl : Option (List PyStr)) (entry : EmotionEntry)
    (p : EmotionEntry × Bool)
    (hfind : find_emotion_entry mem (normalize_phrase trigger) = some entry)
    (happ : applyUpdates entry em t st fl = Except.ok p)
    (hp : p.2 = true) :
    add_emotion_to_phrase mem trigger em t st fl =
      AddOutcome.ok ⟨{ mem with emotion_memory := (updateFirstEntry
        mem.emotion_memory (normalize_phrase trigger) p.1) },
        true, true⟩ := by
  simp only [add_emotion_to_phrase]
  rw [hfind]
  simp only [happ]
  rw [if_pos hp]

theorem add_eq_noupdate (mem : AstraMem) (trigger : PyStr)
    (em : Option (List PyStr)) (t : Option PyStr)
    (st fl : Option (List PyStr)) (entry : EmotionEntry)
    (p : EmotionEntry × Bool)
    (hfind : find_emotion_entry mem (normalize_phrase trigger) = some entry)
    (happ : applyUpdates entry em t st fl = Except.ok p)
    (hp : p.2 = false) :
    add_emotion_to_phrase mem trigger em t st fl =
      AddOutcome.ok ⟨mem, false, false⟩ := by
  simp only [add_emotion_to_phrase]
  rw [hfind]
  simp only [happ]
  rw [if_neg (by simp [hp])]

theorem add_eq_raise_update (mem : AstraMem) (trigger : PyStr)
    (em : Option (List PyStr)) (t : Option PyStr)
    (st fl : Option (List PyStr)) (entry e' : EmotionEntry)
    (hfind : find_emotion_entry mem (normalize_phrase trigger) = some entry)
    (happ : applyUpdates entry em t st fl = Except.error e') :
    add_emotion_to_phrase mem trigger em t st fl =
      AddOutcome.typeError { mem with emotion_memory := (updateFirstEntry
        mem.emotion_memory (normalize_phrase trigger) e') } := by
  simp only [add_emotion_to_phrase]
  rw [hfind]
  simp only [happ]

theorem add_eq_skip (mem : AstraMem) (trigger : PyStr)
    (em : Option (List PyStr)) (t : Option PyStr)
    (st fl : Option (List PyStr))
    (hfind : find_emotion_entry mem (normalize_phrase trigger) = none)
    (hscan : dedupScan em t st fl (semantic_match mem
        (normalize_phrase trigger) SIMILARITY_THRESHOLD) =
      Except.ok true) :
    add_emotion_to_phrase mem trigger em t st fl =
      AddOutcome.ok ⟨mem, false, false⟩ := by
  simp only [add_emotion_to_phrase]
  rw [hfind]
  simp only [hscan]

theorem add_eq_append (mem : AstraMem) (trigger : PyStr)
    (em : Option (List PyStr)) (t : Option PyStr)
    (st fl : Option (List PyStr))
    (hfind : find_emotion_entry mem (normalize_phrase trigger) = none)
    (hscan : dedupScan em t st fl (semantic_match mem
        (normalize_phrase trigger) SIMILARITY_THRESHOLD) =
      Except.ok false) :
    add_emotion_to_phrase mem trigger em t st fl =
      AddOutcome.ok ⟨{ mem with emotion_memory := (mem.emotion_memory ++
          [{ trigger := normalize_phrase trigger, emotion := em,
             tone := t.map .str,
             subtone := st.map (fun l => l.map .str),
             flavor := fl.map (fun l => l.map .str) }]) },
        true, true⟩ := by
  simp only [add_emotion_to_phrase]
  rw [hfind]
  simp only [hscan]

theorem add_eq_raise_scan (mem : AstraMem) (trigger : PyStr)
    (em : Option (List PyStr)) (t : Option PyStr)
    (st fl : Option (List PyStr))
    (hfind : find_emotion_entry mem (normalize_phrase trigger) = none)
    (hscan : dedupScan em t st fl (semantic_match mem
        (normalize_phrase trigger) SIMILARITY_THRESHOLD) =
      Except.error ()) :
    add_emotion_to_phrase mem trigger em t st fl =
      AddOutcome.typeError mem := by
  simp only [add_emotion_to_phrase]
  rw [hfind]
  simp only [hscan]

theorem find_emotion_entry_append_self (l : List EmotionEntry)
    (phrase : PyStr) (X : EmotionEntry)
    (hX : triggerKeyEq phrase X = true)
    (hl : l.find? (triggerKeyEq phrase) = none)
    (tp : List TriggerPhrase) (cs : EmotState) :
    find_emotion_entry ⟨l ++ [X], tp, cs⟩ phrase = some X := by
  have hsingle : (l ++ [X]).find? (triggerKeyEq phrase) = some X := by
    rw [List.find?_append, hl]
    simp [List.find?_cons, hX]
  exact hsingle

theorem semantic_match_subset {mem : AstraMem} {input : PyStr} {th : ℚ}
    {m : EmotionEntry} (hm : m ∈ semantic_match mem input th) :
    m ∈ mem.emotion_memory := by
  simp only [semantic_match] at hm
  obtain ⟨pair, hpair, rfl⟩ := List.mem_map.mp hm
  rw [List.mem_mergeSort] at hpair
  obtain ⟨item, hitem, hsome⟩ := List.mem_filterMap.mp hpair
  by_cases hth : semantic_similarity (normalize_phrase input)
      (normalize_phrase item.trigger) ≥ th
  · rw [if_pos hth] at hsome
    injection hsome with hsome
    rw [← hsome]
    exact hitem
  · rw [if_neg hth] at hsome
    cases hsome

/-- C3 amended: when `add_emotion_to_phrase` returns normally it is
idempotent — a second call with the same phrase and fields returns
`False`, leaves the store exactly as after the first call and performs
no disk write — a returning call writes the emotion file exactly when
it changed the store, and when an entry with the same normalized key
already exists the call never changes the number of stored entries.
When a compared stored subtone/flavor list holds a dict the call
instead propagates the `TypeError` that `set()` raises: the store keeps
its size (the found entry is at most partially mutated in RAM, nothing
is written), and a raise out of the fuzzy-dedup scan leaves the store
untouched.  (A phrase merely similar above the 0.75 threshold with
different fields appends a new entry — see the counterexample.) -/
theorem add_emotion_to_phrase_dedup (mem : AstraMem) (trigger : PyStr)
    (em : Option (List PyStr)) (t : Option PyStr)
    (st fl : Option (List PyStr)) :
    (∀ r, add_emotion_to_phrase mem trigger em t st fl = AddOutcome.ok r →
      add_emotion_to_phrase r.memory trigger em t st fl =
          AddOutcome.ok ⟨r.memory, false, false⟩
        ∧ (r.wroteFile = true ↔ r.memory ≠ mem)
        ∧ (∀ entry, find_emotion_entry mem (normalize_phrase trigger)
              = some entry →
            r.memory.emotion_memory.length = mem.emotion_memory.length))
    ∧ (∀ mem', add_emotion_to_phrase mem trigger em t st fl =
          AddOutcome.typeError mem' →
        mem'.emotion_memory.length = mem.emotion_memory.length
          ∧ (find_emotion_entry mem (normalize_phrase trigger) = none →
              mem' = mem)) := by
  cases hfind : find_emotion_entry mem (normalize_phrase trigger) with
  | some entry =>
    have hfind' : mem.emotion_memory.find?
        (triggerKeyEq (normalize_phrase trigger)) = some entry := hfind
    constructor
    · intro r hr
      cases happ : applyUpdates entry em t st fl with
      | error e' =>
        rw [add_eq_raise_update mem trigger em t st fl entry e' hfind happ]
          at hr
        exact AddOutcome.noConfusion hr
      | ok p =>
        by_cases hp : p.2 = true
        · have h1 := add_eq_update mem trigger em t st fl entry p hfind
            happ hp
          rw [h1] at hr
          injection hr with hr
          subst hr
          have hpe := List.find?_some hfind'
          have htrig : triggerKeyEq (normalize_phrase trigger) p.1
              = true := by
            simp only [triggerKeyEq] at hpe ⊢
            rw [applyUpdates_trigger happ]
            exact hpe
          have hfind2 : find_emotion_entry
              { mem with emotion_memory := (updateFirstEntry
                mem.emotion_memory (normalize_phrase trigger) p.1) }
              (normalize_phrase trigger) = some p.1 :=
            updateFirstEntry_find? mem.emotion_memory _ _ entry hfind' htrig
          have hstab := applyUpdates_stable happ
          have h2 := add_eq_noupdate _ trigger em t st fl p.1 (p.1, false)
            hfind2 hstab rfl
          have hne : ({ mem with emotion_memory := (updateFirstEntry
              mem.emotion_memory (normalize_phrase trigger) p.1) } :
                AstraMem) ≠ mem := by
            intro hEq
            have hl := congrArg AstraMem.emotion_memory hEq
            exact updateFirstEntry_ne mem.emotion_memory
              (normalize_phrase trigger) p.1 entry hfind'
              (applyUpdates_ne happ hp) hl
          refine ⟨h2, ⟨fun _ => hne, fun _ => rfl⟩, ?_⟩
          intro entry' _
          exact updateFirstEntry_length mem.emotion_memory _ _
        · have hp' : p.2 = false := by
            cases hB : p.2 with
            | false => rfl
            | true => exact absurd hB hp
          have h1 := add_eq_noupdate mem trigger em t st fl entry p hfind
            happ hp'
          rw [h1] at hr
          injection hr with hr
          subst hr
          exact ⟨h1, by simp, fun entry' _ => rfl⟩
    · intro mem' hm
      cases happ : applyUpdates entry em t st fl with
      | error e' =>
        rw [add_eq_raise_update mem trigger em t st fl entry e' hfind happ]
          at hm
        injection hm with hm
        subst hm
        refine ⟨updateFirstEntry_length mem.emotion_memory _ _, ?_⟩
        intro hnone
        exact Option.noConfusion hnone
      | ok p =>
        by_cases hp : p.2 = true
        · rw [add_eq_update mem trigger em t st fl entry p hfind happ hp]
            at hm
          exact AddOutcome.noConfusion hm
        · have hp' : p.2 = false := by
            cases hB : p.2 with
            | false => rfl
            | true => exact absurd hB hp
          rw [add_eq_noupdate mem trigger em t st fl entry p hfind happ hp']
            at hm
          exact AddOutcome.noConfusion hm
  | none =>
    have hfind' : mem.emotion_memory.find?
        (triggerKeyEq (normalize_phrase trigger)) = none := hfind
    constructor
    · intro r hr
      cases hscan : dedupScan em t st fl (semantic_match mem
          (normalize_phrase trigger) SIMILARITY_THRESHOLD) with
      | error u =>
        cases u
        rw [add_eq_raise_scan mem trigger em t st fl hfind hscan] at hr
        exact AddOutcome.noConfusion hr
      | ok b =>
        cases b with
        | true =>
          have h1 := add_eq_skip mem trigger em t st fl hfind hscan
          rw [h1] at hr
          injection hr with hr
          subst hr
          refine ⟨h1, by simp, ?_⟩
          intro entry' h'
          exact Option.noConfusion h'
        | false =>
          have h1 := add_eq_append mem trigger em t st fl hfind hscan
          rw [h1] at hr
          injection hr with hr
          subst hr
          have hfind2 := find_emotion_entry_append_self mem.emotion_memory
            (normalize_phrase trigger)
            { trigger := normalize_phrase trigger, emotion := em,
              tone := t.map .str,
              subtone := st.map (fun l => l.map .str),
              flavor := fl.map (fun l => l.map .str) }
            (by simp [triggerKeyEq]) hfind' mem.trigger_phrases
            mem.current_state
          have happ2 : applyUpdates
              { trigger := normalize_phrase trigger, emotion := em,
                tone := t.map .str,
                subtone := st.map (fun l => l.map .str),
                flavor := fl.map (fun l => l.map .str) } em t st fl =
              Except.ok
                (({ trigger := normalize_phrase trigger, emotion := em,
                    tone := t.map .str,
                    subtone := st.map (fun l => l.map .str),
                    flavor := fl.map (fun l => l.map .str) } :
                  EmotionEntry), false) :=
            applyUpdates_of_fieldsMatch_nodict
              (fieldsMatch_newItem _ em t st fl)
              (hasDictVal_optMapStr st) (hasDictVal_optMapStr fl)
          have h2 := add_eq_noupdate _ trigger em t st fl _ _
            hfind2 happ2 rfl
          have hne : ({ mem with emotion_memory := (mem.emotion_memory ++
              [{ trigger := normalize_phrase trigger, emotion := em,
                 tone := t.map .str,
                 subtone := st.map (fun l => l.map .str),
                 flavor := fl.map (fun l => l.map .str) }]) } : AstraMem)
              ≠ mem := by
            intro hEq
            have hl := congrArg
              (fun m : AstraMem => m.emotion_memory.length) hEq
            simp at hl
          refine ⟨h2, ⟨fun _ => hne, fun _ => rfl⟩, ?_⟩
          intro entry' h'
          exact Option.noConfusion h'
    · intro mem' hm
      cases hscan : dedupScan em t st fl (semantic_match mem
          (normalize_phrase trigger) SIMILARITY_THRESHOLD) with
      | error u =>
        cases u
        rw [add_eq_raise_scan mem trigger em t st fl hfind hscan] at hm
        injection hm with hm
        subst hm
        exact ⟨rfl, fun _ => rfl⟩
      | ok b =>
        cases b with
        | true =>
          rw [add_eq_skip mem trigger em t st fl hfind hscan] at hm
          exact AddOutcome.noConfusion hm
        | false =>
          rw [add_eq_append mem trigger em t st fl hfind hscan] at hm
          exact AddOutcome.noConfusion hm

/-- Stored entry for the C3 witness. -/
def c3Entry : EmotionEntry :=
  { trigger := strCp "ты моя радость", emotion := some [strCp "радость"],
    tone := none, subtone := none, flavor := none }

/-- Memory for the C3 witness. -/
def c3Mem : AstraMem :=
  { emotion_memory := [c3Entry], trigger_phrases := [],
    current_state := { tone := some (strCp "нежный"),
                       emotion := [strCp "нежность"],
                       subtone := [], flavor := [] } }

/-- Result of the C3 witness's first (in-place update) call. -/
def c3Result : AddResult :=
  ⟨{ c3Mem with emotion_memory :=
      ([{ c3Entry with emotion := some [strCp "грусть"] }]) }, true, true⟩

/-- Stored entry with a dict-valued subtone, for the C3 witness's
`TypeError` component. -/
def c3DictEntry : EmotionEntry :=
  { trigger := strCp "обнимаю тебя", emotion := some [strCp "радость"],
    tone := none, subtone := some [PyVal.labeled (strCp "мягкий")],
    flavor := none }

/-- Memory holding the dict-valued entry. -/
def c3DictMem : AstraMem :=
  { emotion_memory := [c3DictEntry], trigger_phrases := [],
    current_state := { tone := none, emotion := [], subtone := [],
                       flavor := [] } }

/-- The store as left in RAM by the raising call: the emotion field was
already overwritten when the subtone comparison raised. -/
def c3RaisedMem : AstraMem :=
  { c3DictMem with emotion_memory :=
      ([{ c3DictEntry with emotion := some [strCp "нежность"] }]) }

/-- Witness for C3's amended theorem: a concrete in-place update (store
size kept, second call a no-op returning `False` without a write) and a
concrete raising call on a dict-valued stored subtone whose partially
mutated store keeps its size. -/
theorem add_emotion_to_phrase_dedup_witness :
    (c3Result.memory.emotion_memory.length = c3Mem.emotion_memory.length
      ∧ add_emotion_to_phrase c3Result.memory (strCp "Ты моя радость!")
          (some [strCp "грусть"]) none none none =
        AddOutcome.ok ⟨c3Result.memory, false, false⟩)
    ∧ c3RaisedMem.emotion_memory.length
        = c3DictMem.emotion_memory.length :=
  ⟨⟨((add_emotion_to_phrase_dedup c3Mem (strCp "Ты моя радость!")
        (some [strCp "грусть"]) none none none).1 c3Result
        (by decide)).2.2 c3Entry (by decide),
    ((add_emotion_to_phrase_dedup c3Mem (strCp "Ты моя радость!")
        (some [strCp "грусть"]) none none none).1 c3Result
        (by decide)).1⟩,
    ((add_emotion_to_phrase_dedup c3DictMem (strCp "обнимаю тебя")
        (some [strCp "нежность"]) none (some [strCp "тёплый"]) none).2
      c3RaisedMem (by decide)).1⟩

/-- Stored entry for the C3 counterexample. -/
def c3cEntry : EmotionEntry :=
  { trigger := strCp "привет дорогой", emotion := some [strCp "радость"],
    tone := none, subtone := none, flavor := none }

/-- Memory for the C3 counterexample. -/
def c3cMem : AstraMem :=
  { emotion_memory := [c3cEntry], trigger_phrases := [],
    current_state := { tone := some (strCp "нежный"),
                       emotion := [strCp "нежность"],
                       subtone := [], flavor := [] } }

/-- C3 counterexample: "привет дорогая" is similar to the stored key
"привет дорогой" above the 0.75 dedup threshold, yet adding it with
different emotion fields appends a second entry instead of updating the
existing one in place. -/
theorem add_emotion_to_phrase_similar_duplicates :
    SIMILARITY_THRESHOLD ≤ semantic_similarity (strCp "привет дорогая")
      (strCp "привет дорогой")
    ∧ add_emotion_to_phrase c3cMem (strCp "привет дорогая")
        (some [strCp "грусть"]) none none none
      = AddOutcome.ok
          ⟨{ c3cMem with emotion_memory := (c3cMem.emotion_memory ++
              [{ trigger := normalize_phrase (strCp "привет дорогая"),
                 emotion := some [strCp "грусть"], tone := none,
                 subtone := none, flavor := none }]) }, true, true⟩
    ∧ c3cMem.emotion_memory.length = 1 := by
  refine ⟨?_, ?_, rfl⟩
  · have e1 : normalize_phrase (strCp "привет дорогая")
        = strCp "привет дорогая" := by decide
    have e2 : normalize_phrase (strCp "привет дорогой")
        = strCp "привет дорогой" := by decide
    have hl1 : (strCp "привет дорогая").length = 14 := by decide
    have hl2 : (strCp "привет дорогой").length = 14 := by decide
    have hM : matchingSize (strCp "привет дорогая")
        (strCp "привет дорогой") 29 0 14 0 14 = 12 := by decide
    unfold semantic_similarity
    rw [e1, e2]
    unfold smRatio
    rw [hl1, hl2]
    norm_num [hM, SIMILARITY_THRESHOLD]
  · have hfind : find_emotion_entry c3cMem
        (normalize_phrase (strCp "привет дорогая")) = none := by decide
    have hscan : dedupScan (some [strCp "грусть"]) none none none
        (semantic_match c3cMem (normalize_phrase (strCp "привет дорогая"))
          SIMILARITY_THRESHOLD) = Except.ok false := by
      apply dedupScan_ok_false
      intro m hm
      have hmm := semantic_match_subset hm
      have hme : m = c3cEntry := by
        simpa [c3cMem] using hmm
      rw [hme]
      rfl
    have h1 := add_eq_append c3cMem (strCp "привет дорогая")
      (some [strCp "грусть"]) none none none hfind hscan
    rw [h1]
    rfl

/-- C9: applying `_normalize_phrase` twice gives the same result as
applying it once. -/
theorem normalize_phrase_idem (s : PyStr) :
    normalize_phrase (normalize_phrase s) = normalize_phrase s :=
  normalize_idem_aux s

-- ### Conversation manager (conversation_manager.py)

/-- A `ConversationMessage` as stored in `full_conversation_history`. -/
structure ConvMessage where
  role : PyStr
  content : PyStr
  timestamp : PyStr
deriving DecidableEq

/-- A role/content pair as stored in `api_context_history`. -/
structure RoleContent where
  role : PyStr
  content : PyStr
deriving DecidableEq

/-- A summary record `{timestamp, summary}`. -/
structure SummaryRec where
  timestamp : PyStr
  summary : PyStr
deriving DecidableEq

/-- An opaque message-embedding slot (`None` when no embedding model is
available; the tensor itself is irrelevant to the claims). -/
abbrev EmbSlot := Option Unit

/-- The state of a `ConversationManager`, including the on-disk summaries
file (modelled as the list of records appended to it). -/
structure ConvState where
  full_conversation_history : List ConvMessage
  api_context_history : List RoleContent
  message_embeddings : List EmbSlot
  summary_history : List SummaryRec
  latest_summary : Option PyStr
  diskSummaries : List SummaryRec
deriving DecidableEq

/-- Python's `l[-k:]` slice on a list. -/
def pySliceLast (k : Nat) (l : List α) : List α := l.drop (l.length - k)

/-- `ConversationManager.summarize_history` with its default arguments
`max_recent = 50`, `summary_words = 40`; `now` models
`datetime.now().isoformat()`.  Returns the new state and the returned
snippet (`None` when the history is short enough). -/
def summarize_history (maxRecent summaryWords : Nat) (now : PyStr)
    (s : ConvState) : ConvState × Option PyStr :=
  if s.full_conversation_history.length ≤ maxRecent then (s, none)
  else
    let old := s.full_conversation_history.take
      (s.full_conversation_history.length - maxRecent)
    let text := joinSp (old.map (fun m => m.content))
    let words := splitWs text
    let snippet := joinSp (words.take summaryWords) ++
      (if words.length > summaryWords then strCp "..." else [])
    let record : SummaryRec := { timestamp := now, summary := snippet }
    let s' : ConvState := { s with
      full_conversation_history :=
        (pySliceLast maxRecent s.full_conversation_history),
      api_context_history :=
        (if s.api_context_history.length > maxRecent then
          pySliceLast maxRecent s.api_context_history
        else s.api_context_history),
      message_embeddings :=
        (if s.message_embeddings.isEmpty then s.message_embeddings
        else pySliceLast maxRecent s.message_embeddings),
      summary_history := s.summary_history ++ [record],
      latest_summary := some snippet,
      diskSummaries := s.diskSummaries ++ [record] }
    (s', some snippet)

/-- `ConversationManager.add_message`: append to the full history, append
an embedding slot (no embedding model available in this model), append to
the API window capped at 20, then run `summarize_history()` with its
defaults. -/
def add_message (role content now : PyStr) (s : ConvState) : ConvState :=
  let s1 : ConvState := { s with
    full_conversation_history := s.full_conversation_history ++
      [({ role := role, content := content, timestamp := now }
        : ConvMessage)],
    message_embeddings := s.message_embeddings ++ [none],
    api_context_history :=
      (if (s.api_context_history ++
          [({ role := role, content := content } : RoleContent)]).length
          > 20 then
        pySliceLast 20 (s.api_context_history ++
          [({ role := role, content := content } : RoleContent)])
      else s.api_context_history ++
        [({ role := role, content := content } : RoleContent)]) }
  (summarize_history 50 40 now s1).1

/-- C10: when the full in-memory history has at most `max_recent = 50`
messages, `summarize_history` returns `None` and changes nothing — not
the history, not the API window, not the embeddings, not the summaries,
not the latest summary, and nothing is appended to the summaries file. -/
theorem summarize_history_short_noop (s : ConvState) (now : PyStr)
    (h : s.full_conversation_history.length ≤ 50) :
    summarize_history 50 40 now s = (s, none) := by
  unfold summarize_history
  rw [if_pos h]

/-- Concrete message for the conversation-manager witnesses. -/
def convMsg : ConvMessage :=
  { role := strCp "user", content := strCp "привет",
    timestamp := strCp "2024-01-01T00:00:00" }

/-- A three-message state for the C10 witness. -/
def c10State : ConvState :=
  { full_conversation_history := List.replicate 3 convMsg,
    api_context_history := [],
    message_embeddings := List.replicate 3 none,
    summary_history := [],
    latest_summary := none,
    diskSummaries := [] }

/-- Witness for C10 at a three-message history. -/
theorem summarize_history_short_noop_witness :
    summarize_history 50 40 (strCp "2024-01-01T00:01:00") c10State
      = (c10State, none) :=
  summarize_history_short_noop c10State (strCp "2024-01-01T00:01:00")
    (by decide)

/-- C6: when the full history is longer than `max_recent = 50`, one call
to `summarize_history` appends exactly one summary record (in memory and
to the summaries file) whose text is the oldest contiguous prefix's
contents joined, truncated to the 40-word budget with an ellipsis marker
if longer; afterwards the in-memory history has at most 50 messages and
is a suffix of the old history (relative order preserved). -/
theorem summarize_history_compaction (s : ConvState) (now : PyStr)
    (h : s.full_conversation_history.length > 50) :
    ∃ snip,
      (summarize_history 50 40 now s).2 = some snip ∧
      (summarize_history 50 40 now s).1.summary_history
        = s.summary_history ++ [{ timestamp := now, summary := snip }] ∧
      (summarize_history 50 40 now s).1.diskSummaries
        = s.diskSummaries ++ [{ timestamp := now, summary := snip }] ∧
      (summarize_history 50 40 now s).1.latest_summary = some snip ∧
      (summarize_history 50 40 now s).1.full_conversation_history.length
        ≤ 50 ∧
      (summarize_history 50 40
        now s).1.full_conversation_history.IsSuffix
        s.full_conversation_history ∧
      snip = joinSp ((splitWs (joinSp
          ((s.full_conversation_history.take
            (s.full_conversation_history.length - 50)).map
            (fun m => m.content)))).take 40) ++
        (if (splitWs (joinSp
          ((s.full_conversation_history.take
            (s.full_conversation_history.length - 50)).map
            (fun m => m.content)))).length > 40
         then strCp "..." else []) := by
  unfold summarize_history
  rw [if_neg (by omega)]
  refine ⟨_, rfl, rfl, rfl, rfl, ?_, ?_, rfl⟩
  · show (pySliceLast 50 s.full_conversation_history).length ≤ 50
    unfold pySliceLast
    rw [List.length_drop]
    omega
  · exact List.drop_suffix _ _

/-- A 51-message state for the C6 witness. -/
def c6State : ConvState :=
  { full_conversation_history := List.replicate 51 convMsg,
    api_context_history := [],
    message_embeddings := [],
    summary_history := [],
    latest_summary := none,
    diskSummaries := [] }

/-- Witness for C6 at a 51-message history. -/
theorem summarize_history_compaction_witness :
    ∃ snip,
      (summarize_history 50 40 (strCp "2024-01-01T00:02:00") c6State).2
        = some snip ∧
      (summarize_history 50 40
        (strCp "2024-01-01T00:02:00") c6State).1.summary_history
        = c6State.summary_history ++
          [{ timestamp := strCp "2024-01-01T00:02:00", summary := snip }] ∧
      (summarize_history 50 40
        (strCp "2024-01-01T00:02:00") c6State).1.diskSummaries
        = c6State.diskSummaries ++
          [{ timestamp := strCp "2024-01-01T00:02:00", summary := snip }] ∧
      (summarize_history 50 40
        (strCp "2024-01-01T00:02:00") c6State).1.latest_summary
        = some snip ∧
      (summarize_history 50 40 (strCp "2024-01-01T00:02:00")
        c6State).1.full_conversation_history.length ≤ 50 ∧
      (summarize_history 50 40 (strCp "2024-01-01T00:02:00")
        c6State).1.full_conversation_history.IsSuffix
        c6State.full_conversation_history ∧
      snip = joinSp ((splitWs (joinSp
          ((c6State.full_conversation_history.take
            (c6State.full_conversation_history.length - 50)).map
            (fun m => m.content)))).take 40) ++
        (if (splitWs (joinSp
          ((c6State.full_conversation_history.take
            (c6State.full_conversation_history.length - 50)).map
            (fun m => m.content)))).length > 40
         then strCp "..." else []) :=
  summarize_history_compaction c6State (strCp "2024-01-01T00:02:00")
    (by decide)

-- ### Orchestrator (astra_chat.py)

/-- The state `AstraChat.send_message` touches: the conversation manager,
the on-disk conversation history file, and the current emotional state in
RAM and on disk. -/
structure ChatState where
  conv : ConvState
  diskHistory : List ConvMessage
  ramState : EmotState
  diskState : EmotState
deriving DecidableEq

/-- Outcome of the blocking generation call `requests.post`: a 200
response with text, a non-200 response, or a transport error
(`requests.exceptions.RequestException`). -/
inductive GenOutcome where
  | ok (text : PyStr)
  | badStatus (code : Nat) (body : PyStr)
  | transportError
deriving DecidableEq

/-- The string `generate_response` returns for a non-200 status. -/
def apiErrorMessage (code : Nat) : PyStr :=
  strCp "Произошла ошибка при обращении к API. Код: " ++ strCp (toString code)

/-- The fallback `send_message` returns when a `RequestException` is
caught. -/
def connectionFallback : PyStr :=
  strCp "Прости, у меня возникли проблемы с подключением. Можешь повторить?"

/-- `AstraChat.generate_response`, abstracted over the network outcome:
a non-200 status is handled by returning an error string (no exception),
while a transport error raises. -/
def generate_response (gen : GenOutcome) : Except Unit PyStr :=
  match gen with
  | .ok t => .ok t
  | .badStatus c _ => .ok (apiErrorMessage c)
  | .transportError => .error ()

/-- `AstraChat.send_message`.  The emotional analyzer's result
(`process_user_message` → `EmotionalAnalyzer.analyze_message`) is passed
in as `resolved`, since the claim quantifies over every turn;
`process_user_message` persists it via `save_current_state` (RAM and
disk) before the generation call.  On success the assistant reply is
appended and `save_history_to_disk` rewrites the history file; on a
caught `RequestException` the fallback string is returned with no further
writes. -/
def send_message (st : ChatState) (userMsg : PyStr) (resolved : EmotState)
    (gen : GenOutcome) (now : PyStr) : PyStr × ChatState :=
  let st1 : ChatState :=
    { st with conv := add_message (strCp "user") userMsg now st.conv }
  let st2 : ChatState := { st1 with ramState := resolved,
                                    diskState := resolved }
  match generate_response gen with
  | .ok finalResponse =>
    let st3 : ChatState := { st2 with conv := (add_message
      (strCp "assistant") finalResponse now st2.conv) }
    (finalResponse,
      { st3 with diskHistory := st3.conv.full_conversation_history })
  | .error _ => (connectionFallback, st2)

/-- Initial state for the C1 counterexample: empty histories, a default
current state. -/
def c1State : ChatState :=
  { conv := { full_conversation_history := [], api_context_history := [],
              message_embeddings := [], summary_history := [],
              latest_summary := none, diskSummaries := [] },
    diskHistory := [],
    ramState := { tone := some (strCp "нежный"),
                  emotion := [strCp "нежность"], subtone := [],
                  flavor := [] },
    diskState := { tone := some (strCp "нежный"),
                   emotion := [strCp "нежность"], subtone := [],
                   flavor := [] } }

/-- The state the analyzer resolves in the C1 counterexample (differs
from the persisted state before the turn). -/
def c1Resolved : EmotState :=
  { tone := some (strCp "игривый"), emotion := [strCp "игривость"],
    subtone := [], flavor := [] }

/-- C1 counterexample: the generation call fails with HTTP 500, yet
`send_message` returns the API-error string as the reply, both the user
message and that error string are appended to the history as a completed
turn, the history file is rewritten, and the resolved state is persisted
— the persisted history and state are not "exactly as they were before
the turn began". -/
theorem send_message_bad_status_persists :
    (send_message c1State (strCp "привет") c1Resolved
      (.badStatus 500 []) (strCp "t1")).1 = apiErrorMessage 500
    ∧ (send_message c1State (strCp "привет") c1Resolved
        (.badStatus 500 []) (strCp "t1")).2.diskState ≠ c1State.diskState
    ∧ (send_message c1State (strCp "привет") c1Resolved
        (.badStatus 500 [])
        (strCp "t1")).2.conv.full_conversation_history.length
      = c1State.conv.full_conversation_history.length + 2
    ∧ (send_message c1State (strCp "привет") c1Resolved
        (.badStatus 500 []) (strCp "t1")).2.diskHistory
      ≠ c1State.diskHistory := by
  decide

/-- C1 amended: on a transport error `send_message` does return the short
apologetic fallback, but by that point the user message is already in the
in-memory history and the resolved state has already been persisted; a
non-200 status does not raise at all — `generate_response` returns an
API-error string that `send_message` treats as the reply: it is appended
as the assistant message, the history file is rewritten, and the resolved
state remains persisted. -/
theorem send_message_failure_persistence (st : ChatState) (userMsg : PyStr)
    (resolved : EmotState) (now : PyStr) :
    (send_message st userMsg resolved .transportError now
      = (connectionFallback,
         { st with conv := add_message (strCp "user") userMsg now st.conv,
                   ramState := resolved, diskState := resolved }))
    ∧ (∀ c b,
        (send_message st userMsg resolved (.badStatus c b) now).1
          = apiErrorMessage c
        ∧ (send_message st userMsg resolved
            (.badStatus c b) now).2.diskState = resolved
        ∧ (send_message st userMsg resolved
            (.badStatus c b) now).2.conv.full_conversation_history
          = (add_message (strCp "assistant") (apiErrorMessage c) now
              (add_message (strCp "user") userMsg now
                st.conv)).full_conversation_history
        ∧ (send_message st userMsg resolved
            (.badStatus c b) now).2.diskHistory
          = (add_message (strCp "assistant") (apiErrorMessage c) now
              (add_message (strCp "user") userMsg now
                st.conv)).full_conversation_history) :=
  ⟨rfl, fun _ _ => ⟨rfl, rfl, rfl, rfl⟩⟩

-- ### Memory retrieval: chunking, prefiltering and token budgets
-- (`memory_extractor.py`, `intent_analyzer.py`, `dual_model_integrator.py`)

/-- `_count_tokens` in `memory_extractor.py`, in the environment without
the optional `tiktoken` dependency: `len(text) // 4`. -/
def count_tokens (text : PyStr) : Nat := text.length / 4

/-- Index of the leftmost occurrence of `sep` as a substring of `l`, as
consumed by Python `str.split(sep)`. -/
def firstMatch (sep l : PyStr) : Option Nat :=
  (List.range (l.length + 1)).find?
    (fun i => (l.drop i).take sep.length == sep)

/-- Fuel-driven worker for Python `str.split(sep)` with a non-empty
separator: cut at the leftmost occurrence and continue after it.  Each
step consumes at least one character, so `l.length` fuel is enough; the
fuel-exhausted arm agrees with the no-occurrence arm. -/
def splitOnSepGo (sep : PyStr) : Nat → PyStr → List PyStr
  | 0, l => [l]
  | fuel + 1, l =>
    match firstMatch sep l with
    | none => [l]
    | some i => l.take i :: splitOnSepGo sep fuel (l.drop (i + sep.length))

/-- Python `l.split(sep)` for a non-empty separator. -/
def splitOnSep (sep l : PyStr) : List PyStr := splitOnSepGo sep l.length l

/-- Python `s.replace(old, "")` for a non-empty `old`: split on the
substring and concatenate the parts. -/
def replaceDrop (old s : PyStr) : PyStr := (splitOnSep old s).flatten

/-- The paragraph list of `get_memory_fragments`:
`[p.strip() for p in diary_content.split('\n\n') if p.strip()]`. -/
def paragraphsOf (content : PyStr) : List PyStr :=
  ((splitOnSep (strCp "\n\n") content).map stripChars).filter
    (fun p => !p.isEmpty)

/-- The first chunking pass of `get_memory_fragments` (lines 111-125):
accumulate paragraphs into `current_fragment` while the joined length
stays within `chunk_size`, flushing (stripped) to `fragments` on
overflow; an oversized single paragraph becomes a fragment on its own. -/
def chunkPassGo (chunkSize : Nat) :
    List PyStr → List PyStr → PyStr → List PyStr
  | [], fragments, current =>
    if current.isEmpty then fragments else fragments ++ [stripChars current]
  | p :: rest, fragments, current =>
    if chunkSize < current.length + p.length + 2 then
      chunkPassGo chunkSize rest
        (if current.isEmpty then fragments else fragments ++ [stripChars current]) p
    else
      chunkPassGo chunkSize rest fragments
        (if current.isEmpty then p else current ++ strCp "\n\n" ++ p)

/-- The inner merge loop of `get_memory_fragments` (lines 134-139):
greedily absorb following fragments while the combined length stays
strictly under `chunk_size`; returns the merged fragment and the
unconsumed remainder. -/
def mergeSmall (chunkSize : Nat) : PyStr → List PyStr → PyStr × List PyStr
  | f, [] => (f, [])
  | f, g :: rest =>
    if f.length + g.length + 2 < chunkSize then
      mergeSmall chunkSize (f ++ strCp "\n\n" ++ g) rest
    else (f, g :: rest)

/-- The outer merge loop of `get_memory_fragments` (lines 128-143), with
fuel: each step emits one merged fragment and continues on the
remainder.  The list length is enough fuel, since every step consumes
at least the head. -/
def mergePassGo (chunkSize : Nat) : Nat → List PyStr → List PyStr
  | _, [] => []
  | 0, l => l
  | fuel + 1, f :: rest =>
    (mergeSmall chunkSize f rest).1 ::
      mergePassGo chunkSize fuel (mergeSmall chunkSize f rest).2

/-- The undersized-fragment merge pass of `get_memory_fragments`. -/
def mergePass (chunkSize : Nat) (fragments : List PyStr) : List PyStr :=
  mergePassGo chunkSize fragments.length fragments

/-- An association-list model of a Python `dict` with string keys:
updating keeps the key's position, a new key is appended (insertion
order, as Python dicts). -/
def dictInsert (k v : PyStr) (d : List (PyStr × PyStr)) :
    List (PyStr × PyStr) :=
  if d.any (fun kv => kv.1 == k) then
    d.map (fun kv => if kv.1 == k then (k, v) else kv)
  else d ++ [(k, v)]

/-- Python `key in dict` / `dict[key]` for the diary cache. -/
def dictGet? (d : List (PyStr × PyStr)) (k : PyStr) : Option PyStr :=
  (d.find? (fun kv => kv.1 == k)).map (fun kv => kv.2)

/-- `MemoryExtractor.get_memory_fragments`: look the diary up in the
cache (absent diary gives `[]`) and chunk its content; the `overlap`
parameter of the source is never used there. -/
def get_memory_fragments (diaries : List (PyStr × PyStr))
    (diary_name : PyStr) (chunk_size : Nat) : List PyStr :=
  match dictGet? diaries diary_name with
  | none => []
  | some content =>
    mergePass chunk_size (chunkPassGo chunk_size (paragraphsOf content) [] [])

/-- The synonym table of `prefilter_fragments` (lines 164-169). -/
def synonymsFor (w : PyStr) : List PyStr :=
  if w == strCp "домик" then
    [strCp "дом", strCp "интерфейс", strCp "пространство", strCp "комната",
     strCp "ui", strCp "макет", strCp "figma"]
  else if w == strCp "создание" then
    [strCp "строительство", strCp "разработка", strCp "планирование",
     strCp "обсуждение", strCp "создавал", strCp "построил"]
  else if w == strCp "программа" then
    [strCp "интерфейс", strCp "приложение", strCp "система", strCp "дом",
     strCp "архитектура"]
  else if w == strCp "обсуждали" then
    [strCp "говорили", strCp "планировали", strCp "создавали", strCp "думали",
     strCp "решали"]
  else []

/-- The expanded keyword collection of `prefilter_fragments` (a Python
`set`; downstream only `matches > 0`, an existence test, is used, so
the duplicates a list may keep cannot change the result). -/
def expandedWords (query : PyStr) : List PyStr :=
  splitWs (pyLower query) ++ ((splitWs (pyLower query)).map synonymsFor).flatten

/-- `MemoryExtractor.prefilter_fragments`: keep fragments that contain an
expanded keyword, are longer than 50 characters and are not a short
notebook-emoji header; fall back to the full list when fewer than 5
survive. -/
def prefilter_fragments (fragments : List PyStr) (query : PyStr) :
    List PyStr :=
  if fragments.isEmpty then []
  else
    if (fragments.filter (fun fragment =>
        ((expandedWords query).any
            (fun w => containsSub (pyLower fragment) w)
          && decide (50 < fragment.length))
          && !((fragment.take 1 == strCp "📔")
            && decide (fragment.length < 100)))).length < 5 then
      fragments
    else
      fragments.filter (fun fragment =>
        ((expandedWords query).any
            (fun w => containsSub (pyLower fragment) w)
          && decide (50 < fragment.length))
          && !((fragment.take 1 == strCp "📔")
            && decide (fragment.length < 100)))

-- ### C8: fragment lengths

theorem stripChars_length_le (l : PyStr) :
    (stripChars l).length ≤ l.length := by
  have h1 : ((l.dropWhile (fun c => isSpaceCp c)).reverse.dropWhile
      (fun c => isSpaceCp c)).length ≤
      (l.dropWhile (fun c => isSpaceCp c)).reverse.length :=
    List.Sublist.length_le (List.dropWhile_sublist _)
  have h2 : (l.dropWhile (fun c => isSpaceCp c)).length ≤ l.length :=
    List.Sublist.length_le (List.dropWhile_sublist _)
  unfold stripChars
  rw [List.length_reverse]
  rw [List.length_reverse] at h1
  exact le_trans h1 h2

theorem sep_length : (strCp "\n\n").length = 2 := rfl

theorem append_sep_length (a b : PyStr) :
    (a ++ strCp "\n\n" ++ b).length = a.length + 2 + b.length := by
  rw [List.length_append, List.length_append, sep_length]

/-- The property every chunk of `get_memory_fragments` satisfies: within
the size cap, or the strip of a single (oversized) paragraph. -/
abbrev FragOk (paras : List PyStr) (cs : Nat) (f : PyStr) : Prop :=
  f.length ≤ cs ∨ ∃ p ∈ paras, f = stripChars p

theorem flush_ok {paras : List PyStr} {cs : Nat} {fragments : List PyStr}
    {current : PyStr} (hfr : ∀ f ∈ fragments, FragOk paras cs f)
    (hcur : current = [] ∨ current.length ≤ cs ∨ current ∈ paras) :
    ∀ f ∈ (if current.isEmpty then fragments
           else fragments ++ [stripChars current]),
      FragOk paras cs f := by
  intro f hf
  by_cases hc : current.isEmpty
  · rw [if_pos hc] at hf
    exact hfr f hf
  · rw [if_neg hc] at hf
    rcases List.mem_append.1 hf with h | h
    · exact hfr f h
    · have hfe : f = stripChars current := by simpa using h
      subst hfe
      rcases hcur with h0 | hlen | hp
      · exact absurd (by rw [h0]; rfl) hc
      · exact Or.inl (le_trans (stripChars_length_le current) hlen)
      · exact Or.inr ⟨current, hp, rfl⟩

theorem chunkPassGo_ok (cs : Nat) (paras : List PyStr) :
    ∀ (rem fragments : List PyStr) (current : PyStr),
      (∀ p ∈ rem, p ∈ paras) →
      (∀ f ∈ fragments, FragOk paras cs f) →
      (current = [] ∨ current.length ≤ cs ∨ current ∈ paras) →
      ∀ f ∈ chunkPassGo cs rem fragments current, FragOk paras cs f := by
  intro rem
  induction rem with
  | nil =>
    intro fragments current _ hfr hcur f hf
    simp only [chunkPassGo] at hf
    exact flush_ok hfr hcur f hf
  | cons p rest ih =>
    intro fragments current hrem hfr hcur f hf
    simp only [chunkPassGo] at hf
    have hpP : p ∈ paras := hrem p (List.mem_cons_self p rest)
    have hrest : ∀ q ∈ rest, q ∈ paras :=
      fun q hq => hrem q (List.mem_cons_of_mem p hq)
    by_cases hover : cs < current.length + p.length + 2
    · rw [if_pos hover] at hf
      exact ih _ p hrest (flush_ok hfr hcur) (Or.inr (Or.inr hpP)) f hf
    · rw [if_neg hover] at hf
      refine ih fragments _ hrest hfr ?_ f hf
      by_cases hc : current.isEmpty
      · rw [if_pos hc]
        exact Or.inr (Or.inr hpP)
      · rw [if_neg hc]
        refine Or.inr (Or.inl ?_)
        rw [append_sep_length]
        omega

theorem mergeSmall_fst (cs : Nat) :
    ∀ (rest : List PyStr) (f : PyStr),
      (mergeSmall cs f rest).1 = f ∨ (mergeSmall cs f rest).1.length < cs := by
  intro rest
  induction rest with
  | nil =>
    intro f
    exact Or.inl rfl
  | cons g rs ih =>
    intro f
    simp only [mergeSmall]
    by_cases h : f.length + g.length + 2 < cs
    · rw [if_pos h]
      rcases ih (f ++ strCp "\n\n" ++ g) with h1 | h1
      · right
        rw [h1, append_sep_length]
        omega
      · exact Or.inr h1
    · rw [if_neg h]
      exact Or.inl rfl

theorem mergeSmall_snd (cs : Nat) :
    ∀ (rest : List PyStr) (f x : PyStr),
      x ∈ (mergeSmall cs f rest).2 → x ∈ rest := by
  intro rest
  induction rest with
  | nil =>
    intro f x hx
    simp [mergeSmall] at hx
  | cons g rs ih =>
    intro f x hx
    simp only [mergeSmall] at hx
    by_cases h : f.length + g.length + 2 < cs
    · rw [if_pos h] at hx
      exact List.mem_cons_of_mem g (ih _ x hx)
    · rw [if_neg h] at hx
      exact hx

theorem mergePassGo_ok (cs : Nat) (paras : List PyStr) :
    ∀ (fuel : Nat) (l : List PyStr),
      (∀ f ∈ l, FragOk paras cs f) →
      ∀ f ∈ mergePassGo cs fuel l, FragOk paras cs f := by
  intro fuel
  induction fuel with
  | zero =>
    intro l hl f hf
    cases l with
    | nil => simp [mergePassGo] at hf
    | cons a as =>
      simp only [mergePassGo] at hf
      exact hl f hf
  | succ n ih =>
    intro l hl f hf
    cases l with
    | nil => simp [mergePassGo] at hf
    | cons a as =>
      simp only [mergePassGo] at hf
      rcases List.mem_cons.1 hf with h | h
      · rcases mergeSmall_fst cs as a with h1 | h1
        · rw [h, h1]
          exact hl a (List.mem_cons_self a as)
        · rw [h]
          exact Or.inl (le_of_lt h1)
      · refine ih _ ?_ f h
        intro g hg
        exact hl g (List.mem_cons_of_mem a (mergeSmall_snd cs as a g hg))

/-- C8 amended: every fragment `get_memory_fragments` returns either fits
the `chunk_size` cap or is the strip of a single paragraph of the diary
that alone exceeds the cap.  (The unconditional cap of the claim fails:
see the oversize counterexample.) -/
theorem get_memory_fragments_length (diaries : List (PyStr × PyStr))
    (name content : PyStr) (chunk_size : Nat)
    (h : dictGet? diaries name = some content) :
    ∀ f ∈ get_memory_fragments diaries name chunk_size,
      f.length ≤ chunk_size ∨
        ∃ p ∈ paragraphsOf content, f = stripChars p := by
  intro f hf
  unfold get_memory_fragments at hf
  rw [h] at hf
  unfold mergePass at hf
  exact mergePassGo_ok chunk_size (paragraphsOf content) _ _
    (chunkPassGo_ok chunk_size (paragraphsOf content) (paragraphsOf content)
      [] [] (fun p hp => hp)
      (fun g hg => absurd hg (List.not_mem_nil g)) (Or.inl rfl))
    f hf

/-- Diary cache for the C8 witness. -/
def c8Diaries : List (PyStr × PyStr) :=
  [(strCp "astra_memories", strCp "Привет.\n\nКак дела?")]

/-- Witness for C8's amended theorem at a concrete two-paragraph diary. -/
theorem get_memory_fragments_length_witness :
    dictGet? c8Diaries (strCp "astra_memories") =
        some (strCp "Привет.\n\nКак дела?") ∧
    ∀ f ∈ get_memory_fragments c8Diaries (strCp "astra_memories") 500,
      f.length ≤ 500 ∨
        ∃ p ∈ paragraphsOf (strCp "Привет.\n\nКак дела?"),
          f = stripChars p :=
  ⟨rfl, get_memory_fragments_length c8Diaries (strCp "astra_memories")
    (strCp "Привет.\n\nКак дела?") 500 rfl⟩

/-- Diary cache for the C8 counterexample: one paragraph of 501 copies of
`a` (code point 97). -/
def c8cDiaries : List (PyStr × PyStr) :=
  [(strCp "astra_memories", List.replicate 501 97)]

set_option maxRecDepth 100000 in
/-- C8 counterexample: a diary whose single paragraph has 501 characters,
chunked with the default `chunk_size = 500`, comes back as one fragment
of length 501 > 500 — an oversized paragraph is never split, so the
claimed unconditional length cap fails. -/
theorem get_memory_fragments_oversize :
    get_memory_fragments c8cDiaries (strCp "astra_memories") 500 =
        [List.replicate 501 97] ∧
      (List.replicate 501 (97 : Nat)).length = 501 := by
  constructor
  · decide
  · decide

-- ### The relevance scorer (`IntentAnalyzer.get_semantic_relevance`)

/-- A relevance item as parsed from one scorer batch's JSON reply, after
the `item["index"] = item.get("index", 0) + offset` adjustment (absent
keys are `none`, matching the `dict.get` defaults at each use site;
the adjusted index is a natural number). -/
structure RelItem where
  index : Nat
  relevance : Option ℚ
  reason : Option PyStr
  emotional_weight : Option ℚ
deriving DecidableEq

/-- A selected fragment entry (`entry = {...}`, lines 417-424 of
`intent_analyzer.py`); `index` is present only under the `trace_mode`
strategy. -/
structure SelEntry where
  text : PyStr
  relevance : ℚ
  reason : PyStr
  emotional_weight : ℚ
  index : Option Nat
deriving DecidableEq

/-- `priority_score` (lines 383-391).  The float coefficients 0.7/0.3 and
0.9/0.1 are written as rationals; the score is used only to order the
candidate list, and every property proved below is independent of that
order. -/
def priority_score (strategy : PyStr) (intent : Option PyStr)
    (d : RelItem) : ℚ :=
  if strategy == strCp "verbose_emotion"
      || (intent == some (strCp "intimate")
        || intent == some (strCp "emotional_support")) then
    7/10 * d.relevance.getD 0 + 3/10 * d.emotional_weight.getD 0
  else
    9/10 * d.relevance.getD 0 + 1/10 * d.emotional_weight.getD 0

/-- `all_relevance.sort(key=..., reverse=True)`: stable descending sort
by priority score. -/
def sortByPriority (strategy : PyStr) (intent : Option PyStr)
    (items : List RelItem) : List RelItem :=
  items.mergeSort (fun x y =>
    decide (priority_score strategy intent y ≤ priority_score strategy intent x))

/-- The `compact_relevance` truncation (lines 409-410): keep the first 50
whitespace-separated words. -/
def compactText (strategy : PyStr) (text0 : PyStr) : PyStr :=
  if strategy == strCp "compact_relevance" then joinSp ((splitWs text0).take 50)
  else text0

/-- The entry built for one accepted item (lines 417-424).  The float
default `0.5` of `emotional_weight` is exactly `1/2`. -/
def selEntryOf (strategy : PyStr) (item : RelItem) (text : PyStr) :
    SelEntry :=
  { text := text, relevance := item.relevance.getD 0,
    reason := item.reason.getD [],
    emotional_weight := item.emotional_weight.getD (1/2),
    index := if strategy == strCp "trace_mode" then some item.index else none }

/-- The selection loop of `get_semantic_relevance` (lines 398-427): walk
the priority-sorted items, stop at `top_n` entries, skip out-of-range
indices, truncate under `compact_relevance`, and skip (`continue`) any
fragment whose word count would push `used_tokens` over
`memory_token_limit`.  Returns `(selected, used_tokens)`. -/
def relevanceSelect (fragments : List PyStr) (top_n : Nat)
    (strategy : PyStr) (limit : Nat) :
    List RelItem → List SelEntry → Nat → List SelEntry × Nat
  | [], selected, used => (selected, used)
  | item :: rest, selected, used =>
    if top_n ≤ selected.length then (selected, used)
    else if item.index < fragments.length then
      if limit < used + (splitWs (compactText strategy
          (fragments.getD item.index []))).length then
        relevanceSelect fragments top_n strategy limit rest selected used
      else
        relevanceSelect fragments top_n strategy limit rest
          (selected ++ [selEntryOf strategy item
            (compactText strategy (fragments.getD item.index []))])
          (used + (splitWs (compactText strategy
            (fragments.getD item.index []))).length)
    else relevanceSelect fragments top_n strategy limit rest selected used

/-- The batch partition of `get_semantic_relevance` (lines 281-304):
fragments are grouped greedily by word count under
`safe_limit = int(8192 * 0.7) = 5734`; each batch carries the index
offset of its first fragment. -/
def safeLimit : Nat := 5734

/-- Worker for the batch partition, carrying the loop state
`(batches, batch, batch_tokens, start_idx)` and the running `idx`. -/
def buildBatchesGo (idx : Nat) (fragments : List PyStr)
    (batches : List (Nat × List PyStr)) (batch : List PyStr)
    (batchTokens startIdx : Nat) : List (Nat × List PyStr) :=
  match fragments with
  | [] => if batch.isEmpty then batches else batches ++ [(startIdx, batch)]
  | fragment :: rest =>
    if !batch.isEmpty
        && decide (safeLimit < batchTokens + (splitWs fragment).length) then
      buildBatchesGo (idx + 1) rest (batches ++ [(startIdx, batch)])
        [fragment] (splitWs fragment).length idx
    else
      buildBatchesGo (idx + 1) rest batches (batch ++ [fragment])
        (batchTokens + (splitWs fragment).length)
        (if batch.isEmpty then idx else startIdx)

def buildBatches (fragments : List PyStr) : List (Nat × List PyStr) :=
  buildBatchesGo 0 fragments [] [] 0 0

/-- The outcome of one scorer batch call: `failed` covers a non-200
status, a transport error and an unparseable reply (each swallowed by
`continue` or a log line in the source, lines 350-377); `parsed` is a
JSON relevance list, with the reply's `total_tokens` usage. -/
inductive BatchOutcome
  | failed
  | parsed (items : List RelItem) (usage : Nat)
deriving DecidableEq

/-- The batch loop (lines 314-377): per-batch outcomes are consumed in
order (the network is the environment; a missing outcome counts as
failed), parsed items get their index shifted by the batch offset, and
usage is summed over the successful batches. -/
def collectBatches :
    List (Nat × List PyStr) → List BatchOutcome → List RelItem × Nat
  | [], _ => ([], 0)
  | _ :: batches, [] => collectBatches batches []
  | _ :: batches, BatchOutcome.failed :: rest => collectBatches batches rest
  | (offset, _) :: batches, BatchOutcome.parsed items usage :: rest =>
    ((items.map (fun it => { it with index := it.index + offset })) ++
        (collectBatches batches rest).1,
      usage + (collectBatches batches rest).2)

/-- The result of `get_semantic_relevance`: the source returns the Python
list `[]` on its early-exit paths and a dict
`{"fragments": ..., "_token_usage": ...}` otherwise.  The two shapes
are distinct constructors — which is exactly what the caller's
`relevance_data.get("fragments", [])` trips over. -/
inductive RelevanceResult
  | emptyList
  | resultDict (fragments : List SelEntry) (tokenUsage : Nat)
deriving DecidableEq

/-- `IntentAnalyzer.get_semantic_relevance`.  `apiKey` is the truthiness
of `self.api_key`; `outcomes` supplies each batch's scorer reply. -/
def get_semantic_relevance (apiKey : Bool) (fragments : List PyStr)
    (top_n : Nat) (intent : Option PyStr) (strategy : PyStr) (limit : Nat)
    (outcomes : List BatchOutcome) : RelevanceResult :=
  if !apiKey || fragments.isEmpty then RelevanceResult.emptyList
  else if (collectBatches (buildBatches fragments) outcomes).1.isEmpty then
    RelevanceResult.emptyList
  else
    RelevanceResult.resultDict
      (relevanceSelect fragments top_n strategy limit
        (sortByPriority strategy intent
          (collectBatches (buildBatches fragments) outcomes).1) [] 0).1
      (collectBatches (buildBatches fragments) outcomes).2

-- ### The vector tier (`DualModelIntegrator.extract_vector_memories`)

/-- A hit of the FAISS tier (`semantic_search`): the loop reads
`r.get("text", "")`, `r.get("score", 0)` and
`r.get("source", "vector_store")`. -/
structure SearchHit where
  text : PyStr
  score : ℚ
  source : Option PyStr
deriving DecidableEq

/-- A memory dict built in the vector loop (lines 266-273).  The `reason`
field — an f-string rendering of the score — is a fixed function of
`relevance` and is not modelled separately. -/
structure VectorMemory where
  text : PyStr
  relevance : ℚ
  emotional_weight : ℚ
deriving DecidableEq

/-- The 2000-character truncation (lines 249-250). -/
def truncText (maxTokensPerMemory : Nat) (t : PyStr) : PyStr :=
  if maxTokensPerMemory * 4 < t.length then
    t.take (maxTokensPerMemory * 4) ++ strCp "..."
  else t

/-- The score prefilter (line 223).  The float literal 0.45 is written as
the rational 45/100; the budget property below holds for every
prefiltered list, whatever the threshold. -/
def vectorPrefilter (hits : List SearchHit) : List SearchHit :=
  hits.filter (fun r => decide ((45/100 : ℚ) < r.score))

/-- The budgeted selection loop of `extract_vector_memories`
(lines 243-276): truncate, estimate `len // 4` tokens, and `break` at
the first hit that would push `total_tokens` over `max_total_tokens`.
Returns the memory list, the sources dict and `total_tokens`. -/
def vectorLoop (mpm mtt : Nat) :
    List SearchHit → List VectorMemory → List (PyStr × PyStr) → Nat →
      List VectorMemory × List (PyStr × PyStr) × Nat
  | [], memories, sources, total => (memories, sources, total)
  | r :: rest, memories, sources, total =>
    if mtt < total + (truncText mpm r.text).length / 4 then
      (memories, sources, total)
    else
      vectorLoop mpm mtt rest
        (memories ++ [{ text := truncText mpm r.text, relevance := r.score,
                        emotional_weight := min r.score 1 }])
        (dictInsert (truncText mpm r.text)
          (r.source.getD (strCp "vector_store")) sources)
        (total + (truncText mpm r.text).length / 4)

/-- The happy-path segment of `DualModelIntegrator.extract_vector_memories`
(lines 223 and 237-277), with `max_tokens_per_memory = 500` and
`max_total_tokens = 3000`. -/
def extract_vector_memories (hits : List SearchHit) :
    List VectorMemory × List (PyStr × PyStr) × Nat :=
  vectorLoop 500 3000 (vectorPrefilter hits) [] [] 0

-- ### The lexical collection loop (`MemoryExtractor.extract_relevant_memories`)

/-- The state `(all_fragments, fragments_sources, used_tokens)` of the
collection loop (lines 270-272). -/
structure CollectAcc where
  all_fragments : List PyStr
  fragments_sources : List (PyStr × PyStr)
  used_tokens : Nat
deriving DecidableEq

/-- The innermost fragment loop (lines 298-304): `break` at the first
fragment whose tokens would exceed the limit; accepted fragments are
recorded with their source diary. -/
def collectFromDiary (limit : Nat) (diary_name : PyStr) :
    List PyStr → CollectAcc → CollectAcc
  | [], acc => acc
  | fragment :: rest, acc =>
    if limit < acc.used_tokens + count_tokens fragment then acc
    else
      collectFromDiary limit diary_name rest
        { all_fragments := acc.all_fragments ++ [fragment],
          fragments_sources :=
            dictInsert fragment diary_name acc.fragments_sources,
          used_tokens := acc.used_tokens + count_tokens fragment }

/-- The diary loop (lines 291-306): a diary is read only while it is
cached and the budget is not yet reached; after reading, a reached
budget breaks the loop. -/
def collectDiaries (diaries : List (PyStr × PyStr)) (limit : Nat) :
    List PyStr → CollectAcc → CollectAcc
  | [], acc => acc
  | diary_name :: rest, acc =>
    if (dictGet? diaries (replaceDrop (strCp ".txt") diary_name)).isSome
        ∧ acc.used_tokens < limit then
      if limit ≤ (collectFromDiary limit diary_name
          (get_memory_fragments diaries
            (replaceDrop (strCp ".txt") diary_name) 500) acc).used_tokens then
        collectFromDiary limit diary_name
          (get_memory_fragments diaries
            (replaceDrop (strCp ".txt") diary_name) 500) acc
      else
        collectDiaries diaries limit rest
          (collectFromDiary limit diary_name
            (get_memory_fragments diaries
              (replaceDrop (strCp ".txt") diary_name) 500) acc)
    else collectDiaries diaries limit rest acc

/-- The diary names each memory type maps to (lines 276-288). -/
def diaryNamesFor (memory_type : PyStr) : List PyStr :=
  if memory_type == strCp "core_memory" then [strCp "astra_core_prompt"]
  else if memory_type == strCp "relationship_memory" then
    [strCp "relationship_memory", strCp "astra_memories"]
  else if memory_type == strCp "emotion_memory" then
    [strCp "emotion_memory", strCp "tone_memory", strCp "subtone_memory",
     strCp "flavor_memory"]
  else if memory_type == strCp "user_preferences" then
    [strCp "relationship_memory", strCp "user_preferences"]
  else [memory_type]

/-- The memory-type loop (lines 274-308): a reached budget breaks. -/
def collectTypes (diaries : List (PyStr × PyStr)) (limit : Nat) :
    List PyStr → CollectAcc → CollectAcc
  | [], acc => acc
  | t :: rest, acc =>
    if limit ≤ (collectDiaries diaries limit (diaryNamesFor t) acc).used_tokens
    then collectDiaries diaries limit (diaryNamesFor t) acc
    else
      collectTypes diaries limit rest
        (collectDiaries diaries limit (diaryNamesFor t) acc)

/-- The default memory types chosen from the intent (lines 253-267). -/
def defaultMemoryTypes (intent : PyStr) : List PyStr :=
  if intent == strCp "about_user" then
    [strCp "relationship_memory", strCp "user_preferences"]
  else if intent == strCp "about_relationship" then
    [strCp "relationship_memory", strCp "astra_memories",
     strCp "astra_intimacy"]
  else if intent == strCp "about_astra" then
    [strCp "core_memory", strCp "astra_memories"]
  else if intent == strCp "intimate" then
    [strCp "astra_intimacy", strCp "relationship_memory"]
  else if intent == strCp "memory_recall" then
    [strCp "astra_memories", strCp "relationship_memory"]
  else [strCp "astra_memories", strCp "core_memory"]

-- ### `MemoryExtractor.extract_relevant_memories` and C4

/-- One element of the result's `memories` list: the MCP branch builds
`{"text", "relevance"}` dicts, the scored branch passes the selection
entries through. -/
inductive MemoryItem
  | scored (text : PyStr) (relevance : ℚ)
  | selected (entry : SelEntry)
deriving DecidableEq

/-- The dict `extract_relevant_memories` returns; `token_usage = none`
models the absence of the optional `_token_usage` key. -/
structure ExtractResult where
  intent : PyStr
  memories : List MemoryItem
  sources : List (PyStr × PyStr)
  token_usage : Option Nat
deriving DecidableEq

/-- The marker for the uncaught `AttributeError` raised at line 348 of
`memory_extractor.py` when `get_semantic_relevance` has returned the
bare list `[]`: a Python `list` has no `.get`. -/
def attributeErrorMsg : PyStr :=
  strCp "AttributeError: list object has no attribute get"

/-- `MemoryExtractor.extract_relevant_memories`, with `intent_data`
supplied by the caller (as in the integrator's calls, so the intent
analyzer is not consulted).  `intent_data_intent` and `match_memory`
are the dict's `intent` and `match_memory` entries; `mcp_results` is
the reply of `semantic_search`; `apiKey` and `outcomes` parameterize
the relevance scorer as in `get_semantic_relevance`.  `Except.error`
models the uncaught `AttributeError` of the `.get` call on a list. -/
def extract_relevant_memories (diaries : List (PyStr × PyStr))
    (user_message : PyStr) (intent_data_intent : Option PyStr)
    (match_memory : List PyStr) (mcp_results : List SearchHit)
    (apiKey : Bool) (outcomes : List BatchOutcome)
    (memory_token_limit : Nat) : Except PyStr ExtractResult :=
  if !mcp_results.isEmpty then
    Except.ok
      { intent := intent_data_intent.getD [],
        memories := mcp_results.map (fun r => MemoryItem.scored r.text r.score),
        sources := mcp_results.foldl
          (fun d r => dictInsert r.text (r.source.getD (strCp "mcp")) d) [],
        token_usage := none }
  else
    match collectTypes diaries memory_token_limit
        (if match_memory.isEmpty then
          defaultMemoryTypes (intent_data_intent.getD [])
        else match_memory)
        { all_fragments := [], fragments_sources := [], used_tokens := 0 } with
    | acc =>
      match (if acc.all_fragments.isEmpty then acc.all_fragments
             else prefilter_fragments acc.all_fragments user_message) with
      | all_fragments =>
        if all_fragments.isEmpty then
          Except.ok
            { intent := intent_data_intent.getD (strCp "unknown"),
              memories := [], sources := [], token_usage := none }
        else
          match get_semantic_relevance apiKey all_fragments 3
              (some (intent_data_intent.getD []))
              (strCp "compact_relevance") 800 outcomes with
          | RelevanceResult.emptyList => Except.error attributeErrorMsg
          | RelevanceResult.resultDict sel usage =>
            Except.ok
              { intent := intent_data_intent.getD (strCp "unknown"),
                memories := sel.map MemoryItem.selected,
                sources := sel.foldl (fun d e =>
                  match dictGet? acc.fragments_sources e.text with
                  | some src => dictInsert e.text src d
                  | none => d) [],
                token_usage := some usage }

/-- Diary cache for the C4 failing input: one cached diary whose single
paragraph is longer than 50 characters and contains the query word. -/
def c4Diaries : List (PyStr × PyStr) :=
  [(strCp "astra_memories",
    strCp "Мы обсуждали домик и долго планировали его уютные комнаты вместе.")]

/-- C4 (code bug): when the vector tier returns no hits and the external
relevance scorer is unavailable (no API key — and likewise when every
batch fails), `get_semantic_relevance` returns the bare list `[]`, and
`extract_relevant_memories` crashes on `relevance_data.get("fragments",
[])` with an `AttributeError` instead of returning an empty result —
provided at least one candidate fragment was collected.  Only the
fragmentless path (second conjunct) returns the claimed empty result. -/
theorem extract_relevant_memories_scorer_error :
    extract_relevant_memories c4Diaries (strCp "домик")
        (some (strCp "memory_recall")) [strCp "astra_memories"] [] false []
        3000 =
      Except.error attributeErrorMsg ∧
    extract_relevant_memories [] (strCp "домик")
        (some (strCp "memory_recall")) [strCp "astra_memories"] [] false []
        3000 =
      Except.ok
        { intent := strCp "memory_recall", memories := [], sources := [],
          token_usage := none } :=
  ⟨rfl, rfl⟩

-- ### C5: token budgets

theorem vectorLoop_inv (mpm mtt : Nat) :
    ∀ (hits : List SearchHit) (memories : List VectorMemory)
      (sources : List (PyStr × PyStr)) (total : Nat),
      total ≤ mtt →
      total = (memories.map (fun m => m.text.length / 4)).sum →
      (vectorLoop mpm mtt hits memories sources total).2.2 ≤ mtt ∧
      (vectorLoop mpm mtt hits memories sources total).2.2 =
        ((vectorLoop mpm mtt hits memories sources total).1.map
          (fun m => m.text.length / 4)).sum := by
  intro hits
  induction hits with
  | nil =>
    intro m s t h1 h2
    exact ⟨h1, h2⟩
  | cons r rest ih =>
    intro m s t h1 h2
    simp only [vectorLoop]
    by_cases hb : mtt < t + (truncText mpm r.text).length / 4
    · rw [if_pos hb]
      exact ⟨h1, h2⟩
    · rw [if_neg hb]
      apply ih
      · omega
      · rw [List.map_append, List.sum_append, ← h2]
        simp

theorem relevanceSelect_inv (fragments : List PyStr) (top_n : Nat)
    (strategy : PyStr) (limit : Nat) :
    ∀ (items : List RelItem) (selected : List SelEntry) (used : Nat),
      used ≤ limit →
      used = (selected.map (fun e => (splitWs e.text).length)).sum →
      (relevanceSelect fragments top_n strategy limit items selected used).2
          ≤ limit ∧
      (relevanceSelect fragments top_n strategy limit items selected used).2 =
        (((relevanceSelect fragments top_n strategy limit items
            selected used).1.map (fun e => (splitWs e.text).length)).sum) := by
  intro items
  induction items with
  | nil =>
    intro selected used h1 h2
    exact ⟨h1, h2⟩
  | cons item rest ih =>
    intro selected used h1 h2
    simp only [relevanceSelect]
    by_cases htop : top_n ≤ selected.length
    · rw [if_pos htop]
      exact ⟨h1, h2⟩
    · rw [if_neg htop]
      by_cases hidx : item.index < fragments.length
      · rw [if_pos hidx]
        by_cases hb : limit < used + (splitWs (compactText strategy
            (fragments.getD item.index []))).length
        · rw [if_pos hb]
          exact ih selected used h1 h2
        · rw [if_neg hb]
          apply ih
          · omega
          · rw [List.map_append, List.sum_append, ← h2]
            simp [selEntryOf]
      · rw [if_neg hidx]
        exact ih selected used h1 h2

theorem collectFromDiary_inv (limit : Nat) (diary_name : PyStr) :
    ∀ (fragments : List PyStr) (acc : CollectAcc),
      acc.used_tokens ≤ limit →
      acc.used_tokens = (acc.all_fragments.map count_tokens).sum →
      (collectFromDiary limit diary_name fragments acc).used_tokens ≤ limit ∧
      (collectFromDiary limit diary_name fragments acc).used_tokens =
        ((collectFromDiary limit diary_name fragments
          acc).all_fragments.map count_tokens).sum := by
  intro fragments
  induction fragments with
  | nil =>
    intro acc h1 h2
    exact ⟨h1, h2⟩
  | cons fragment rest ih =>
    intro acc h1 h2
    simp only [collectFromDiary]
    by_cases hb : limit < acc.used_tokens + count_tokens fragment
    · rw [if_pos hb]
      exact ⟨h1, h2⟩
    · rw [if_neg hb]
      apply ih
      · simp only
        omega
      · simp only [List.map_append, List.sum_append, ← h2]
        simp

theorem collectDiaries_inv (diaries : List (PyStr × PyStr)) (limit : Nat) :
    ∀ (names : List PyStr) (acc : CollectAcc),
      acc.used_tokens ≤ limit →
      acc.used_tokens = (acc.all_fragments.map count_tokens).sum →
      (collectDiaries diaries limit names acc).used_tokens ≤ limit ∧
      (collectDiaries diaries limit names acc).used_tokens =
        ((collectDiaries diaries limit names acc).all_fragments.map
          count_tokens).sum := by
  intro names
  induction names with
  | nil =>
    intro acc h1 h2
    exact ⟨h1, h2⟩
  | cons diary_name rest ih =>
    intro acc h1 h2
    simp only [collectDiaries]
    by_cases hin : (dictGet? diaries
        (replaceDrop (strCp ".txt") diary_name)).isSome
        ∧ acc.used_tokens < limit
    · rw [if_pos hin]
      have hstep := collectFromDiary_inv limit diary_name
        (get_memory_fragments diaries
          (replaceDrop (strCp ".txt") diary_name) 500) acc h1 h2
      by_cases hbrk : limit ≤ (collectFromDiary limit diary_name
          (get_memory_fragments diaries
            (replaceDrop (strCp ".txt") diary_name) 500) acc).used_tokens
      · rw [if_pos hbrk]
        exact hstep
      · rw [if_neg hbrk]
        exact ih _ hstep.1 hstep.2
    · rw [if_neg hin]
      exact ih acc h1 h2

theorem collectTypes_inv (diaries : List (PyStr × PyStr)) (limit : Nat) :
    ∀ (types : List PyStr) (acc : CollectAcc),
      acc.used_tokens ≤ limit →
      acc.used_tokens = (acc.all_fragments.map count_tokens).sum →
      (collectTypes diaries limit types acc).used_tokens ≤ limit ∧
      (collectTypes diaries limit types acc).used_tokens =
        ((collectTypes diaries limit types acc).all_fragments.map
          count_tokens).sum := by
  intro types
  induction types with
  | nil =>
    intro acc h1 h2
    exact ⟨h1, h2⟩
  | cons t rest ih =>
    intro acc h1 h2
    simp only [collectTypes]
    have hstep := collectDiaries_inv diaries limit (diaryNamesFor t) acc h1 h2
    by_cases hbrk : limit ≤
        (collectDiaries diaries limit (diaryNamesFor t) acc).used_tokens
    · rw [if_pos hbrk]
      exact hstep
    · rw [if_neg hbrk]
      exact ih _ hstep.1 hstep.2

/-- C5: in each of the three retrieval paths the tracked token total is
exactly the sum of the estimated token counts of the accepted
fragments, and it never exceeds the configured budget — the vector
loop (`len // 4` estimates against `max_total_tokens = 3000`), the
scorer's selection loop (word counts against `memory_token_limit`, for
any priority-ordered candidate list), and the lexical collection loop
(`len // 4` estimates against `memory_token_limit`). -/
theorem retrieval_token_budgets :
    (∀ hits : List SearchHit,
        (extract_vector_memories hits).2.2 ≤ 3000 ∧
        (extract_vector_memories hits).2.2 =
          ((extract_vector_memories hits).1.map
            (fun m => m.text.length / 4)).sum) ∧
    (∀ (fragments : List PyStr) (top_n : Nat) (strategy : PyStr)
        (limit : Nat) (items : List RelItem),
        (relevanceSelect fragments top_n strategy limit items [] 0).2
            ≤ limit ∧
        (relevanceSelect fragments top_n strategy limit items [] 0).2 =
          (((relevanceSelect fragments top_n strategy limit items
            [] 0).1.map (fun e => (splitWs e.text).length)).sum)) ∧
    (∀ (diaries : List (PyStr × PyStr)) (limit : Nat) (types : List PyStr),
        (collectTypes diaries limit types
          { all_fragments := [], fragments_sources := [],
            used_tokens := 0 }).used_tokens ≤ limit ∧
        (collectTypes diaries limit types
          { all_fragments := [], fragments_sources := [],
            used_tokens := 0 }).used_tokens =
          ((collectTypes diaries limit types
            { all_fragments := [], fragments_sources := [],
              used_tokens := 0 }).all_fragments.map count_tokens).sum) :=
  ⟨fun hits => vectorLoop_inv 500 3000 (vectorPrefilter hits) [] [] 0
      (Nat.zero_le 3000) rfl,
    fun fragments top_n strategy limit items =>
      relevanceSelect_inv fragments top_n strategy limit items [] 0
        (Nat.zero_le limit) rfl,
    fun diaries limit types =>
      collectTypes_inv diaries limit types
        { all_fragments := [], fragments_sources := [], used_tokens := 0 }
        (Nat.zero_le limit) rfl⟩
